import Mathlib

/-!
Verification of the AI conversion orchestrator of `convert-sheet-to-md`
(`src/ai_converter.py`): batch planner, generation retry loop, response
parser cascade, file-name normalisation, and the per-file / per-directory
conversion coordinators.  The Python code is shallowly embedded: pure
fragments become Lean functions, the external AI client and the filesystem
become explicit oracle parameters, `time.sleep` calls become an explicit
trace of slept durations (modelled as rationals), and raised exceptions
become `Except` values carrying the exception message.
-/

set_option maxRecDepth 100000

namespace SheetToMd

/-! ### Characters that the token scanner of this development cannot spell directly -/

/-- The character `\x7b` (opening curly brace). -/
def lbrace : Char := Char.ofNat 123

/-- The character `\x7d` (closing curly brace). -/
def rbrace : Char := Char.ofNat 125

/-- The backtick character `\x60`. -/
def btick : Char := Char.ofNat 96

/-! ### Python-style string helpers

Models of the `str` operations the code uses: `in` (substring test),
`str.lower`, `str.startswith`, `str.endswith`.  `pyLower` uses Lean's
ASCII `Char.toLower`; the code only ever lowercases ASCII error text
and extensions, where this agrees with Python `str.lower`. -/

/-- Substring containment on char lists (`needle in hay` for Python `str`). -/
def listContainsSub (needle : List Char) : List Char → Bool
  | [] => needle.isEmpty
  | hay@(_ :: t) => needle.isPrefixOf hay || listContainsSub needle t

/-- Python `sub in s` on strings. -/
def pyContains (s sub : String) : Bool := listContainsSub sub.data s.data

/-- Python `s.lower()` (ASCII model). -/
def pyLower (s : String) : String := String.mk (s.data.map Char.toLower)

/-- Python `s.startswith(pre)`. -/
def pyStarts (s pre : String) : Bool := pre.data.isPrefixOf s.data

/-- Python `s.endswith(suf)`. -/
def pyEnds (s suf : String) : Bool := suf.data.isSuffixOf s.data

/-- Whitespace class of the Python `re` module's `\s` (ASCII part:
space, tab, newline, carriage return, vertical tab, form feed). -/
def isPySpace (c : Char) : Bool :=
  c = ' ' || c = '\t' || c = '\n' || c = '\r' || c.toNat = 11 || c.toNat = 12

/-- Whitespace accepted between tokens by Python's `json.loads`
(space, tab, newline, carriage return). -/
def isJsonWs (c : Char) : Bool :=
  c = ' ' || c = '\t' || c = '\n' || c = '\r'

/-! ### JSON values

Model of the Python values produced by `json.loads`.  Numbers are kept
as an exact mantissa/power-of-ten pair `m * 10 ^ e`; Python's `NaN`,
`Infinity` and `-Infinity` extensions get their own constructors. -/

inductive Json where
  | null
  | bool (b : Bool)
  | num (m : Int) (e : Int)
  | nan
  | inf (neg : Bool)
  | str (s : String)
  | arr (elems : List Json)
  | obj (members : List (String × Json))

/-- Python truthiness (`if not data:`) of a decoded JSON value. -/
def jtruthy : Json → Bool
  | .null => false
  | .bool b => b
  | .num m _ => m ≠ 0
  | .nan => true
  | .inf _ => true
  | .str s => s ≠ ""
  | .arr xs => ¬xs.isEmpty
  | .obj kvs => ¬kvs.isEmpty

/-- Python truthiness of the parser-cascade state: `None` is falsy. -/
def truthyOpt : Option Json → Bool
  | none => false
  | some v => jtruthy v

/-- Dictionary lookup: later duplicate keys win, as in `json.loads`. -/
def jlookupLast (kvs : List (String × Json)) (k : String) : Option Json :=
  (kvs.reverse.find? (fun p => p.1 = k)).map (·.2)

/-! ### A model of `json.loads`

Recursive-descent parser over `List Char` following the grammar accepted
by Python's strict `json.loads` (JSON values, plus the `NaN` /
`Infinity` / `-Infinity` extensions Python enables by default).
All recursion is fuelled; the top-level entry point supplies fuel that
is ample for the input length, so fuel exhaustion never fires there. -/

/-- Hexadecimal digit value. -/
def hexVal (c : Char) : Option Nat :=
  if '0' ≤ c ∧ c ≤ '9' then some (c.toNat - 48)
  else if 'a' ≤ c ∧ c ≤ 'f' then some (c.toNat - 87)
  else if 'A' ≤ c ∧ c ≤ 'F' then some (c.toNat - 55)
  else none

/-- Single-character JSON string escapes. -/
def escChar (c : Char) : Option Char :=
  if c = '"' then some '"'
  else if c = '\\' then some '\\'
  else if c = '/' then some '/'
  else if c = 'b' then some (Char.ofNat 8)
  else if c = 'f' then some (Char.ofNat 12)
  else if c = 'n' then some '\n'
  else if c = 'r' then some '\r'
  else if c = 't' then some '\t'
  else none

/-- Decoding of one string character at `c :: rest` (where `c ≠ '"'`):
an escape sequence, a rejected control character, or a plain character.
Returns the decoded character and the remaining input. -/
def decodeOne (c : Char) (rest : List Char) : Option (Char × List Char) :=
  if c = '\\' then
    match rest with
    | [] => none
    | e :: rest2 =>
      if e = 'u' then
        match rest2 with
        | a :: b :: c2 :: d :: rest3 =>
          match hexVal a, hexVal b, hexVal c2, hexVal d with
          | some ha, some hb, some hc, some hd =>
            some (Char.ofNat (((ha * 16 + hb) * 16 + hc) * 16 + hd), rest3)
          | _, _, _, _ => none
        | _ => none
      else
        match escChar e with
        | some d => some (d, rest2)
        | none => none
  else if c.toNat < 32 then none
  else some (c, rest)

/-- Body of a JSON string after the opening quote: returns the decoded
characters and the remainder after the closing quote. -/
def parseStringBody : Nat → List Char → Option (List Char × List Char)
  | 0, _ => none
  | _ + 1, [] => none
  | fuel + 1, c :: rest =>
    if c = '"' then some ([], rest)
    else
      match decodeOne c rest with
      | some (d, rest2) =>
        match parseStringBody fuel rest2 with
        | some (cs, r) => some (d :: cs, r)
        | none => none
      | none => none

/-- A literal keyword tail (e.g. `ull` after `n`) and its value. -/
def parseExact (lit : List Char) (v : Json) (rest : List Char) : Option (Json × List Char) :=
  if lit.isPrefixOf rest then some (v, rest.drop lit.length) else none

/-- Value of a list of decimal digit characters. -/
def digitsToNat (ds : List Char) : Nat :=
  ds.foldl (fun a c => a * 10 + (c.toNat - 48)) 0

/-- Optional leading minus sign of a JSON number. -/
def numSign (cs : List Char) : Bool × List Char :=
  match cs with
  | '-' :: t => (true, t)
  | _ => (false, cs)

/-- Optional fraction part `\.\d+` of a JSON number: the fraction digits
and the remainder (nothing is consumed when the part is absent). -/
def numFrac (cs2 : List Char) : List Char × List Char :=
  match cs2 with
  | '.' :: t =>
    let f := t.takeWhile Char.isDigit
    if f.isEmpty then (([] : List Char), cs2) else (f, t.drop f.length)
  | _ => (([] : List Char), cs2)

/-- Optional sign of an exponent part. -/
def expSign (t : List Char) : Int × List Char :=
  match t with
  | '+' :: u => ((1 : Int), u)
  | '-' :: u => ((-1 : Int), u)
  | _ => ((1 : Int), t)

/-- Optional exponent part `[eE][-+]?\d+` of a JSON number: the signed
exponent value and the remainder. -/
def numExp (cs3 : List Char) : Int × List Char :=
  match cs3 with
  | e :: t =>
    if e = 'e' ∨ e = 'E' then
      let sp := expSign t
      let eds := sp.2.takeWhile Char.isDigit
      if eds.isEmpty then ((0 : Int), cs3)
      else (sp.1 * (digitsToNat eds : Int), sp.2.drop eds.length)
    else ((0 : Int), cs3)
  | [] => ((0 : Int), cs3)

/-- JSON number, following the regex `-?(0|[1-9]\d*)(\.\d+)?([eE][-+]?\d+)?`
used by Python's scanner: returns `(mantissa, exponent, remainder)` with
value `mantissa * 10 ^ exponent`.  Malformed fraction/exponent parts are
simply not consumed, as with the regex's optional groups. -/
def parseNumberCore (cs : List Char) : Option (Int × Int × List Char) :=
  let p := numSign cs
  match p.2 with
  | [] => none
  | d :: _ =>
    if ¬d.isDigit then none
    else
      let intDs := if d = '0' then ['0'] else p.2.takeWhile Char.isDigit
      let q := numFrac (p.2.drop intDs.length)
      let r := numExp q.2
      let mAbs : Nat := digitsToNat (intDs ++ q.1)
      let m : Int := if p.1 then -(mAbs : Int) else (mAbs : Int)
      some (m, r.1 - (q.1.length : Int), r.2)

mutual

/-- A JSON value; the caller has already skipped leading whitespace. -/
def parseValue : Nat → List Char → Option (Json × List Char)
  | 0, _ => none
  | _ + 1, [] => none
  | fuel + 1, c :: rest =>
    if c = lbrace then parseObjTail fuel (rest.dropWhile isJsonWs)
    else if c = '[' then parseArrTail fuel (rest.dropWhile isJsonWs)
    else if c = '"' then
      match parseStringBody fuel rest with
      | some (cs, r) => some (.str (String.mk cs), r)
      | none => none
    else if c = 'n' then parseExact ['u', 'l', 'l'] .null rest
    else if c = 't' then parseExact ['r', 'u', 'e'] (.bool true) rest
    else if c = 'f' then parseExact ['a', 'l', 's', 'e'] (.bool false) rest
    else if c = 'N' then parseExact ['a', 'N'] .nan rest
    else if c = 'I' then parseExact ['n', 'f', 'i', 'n', 'i', 't', 'y'] (.inf false) rest
    else if c = '-' ∧ rest.headD 'A' = 'I' then
      parseExact ['I', 'n', 'f', 'i', 'n', 'i', 't', 'y'] (.inf true) rest
    else
      match parseNumberCore (c :: rest) with
      | some (m, e, r) => some (.num m e, r)
      | none => none

/-- The rest of an object after `\x7b` and whitespace: either the
immediate closing brace, or a non-empty member list. -/
def parseObjTail : Nat → List Char → Option (Json × List Char)
  | 0, _ => none
  | fuel + 1, cs2 =>
    if cs2.headD 'A' = rbrace then some (.obj [], cs2.tail)
    else
      match parseMembers fuel cs2 with
      | some (ms, r2) => some (.obj ms, r2)
      | none => none

/-- The rest of an array after `[` and whitespace: either the immediate
closing bracket, or a non-empty element list. -/
def parseArrTail : Nat → List Char → Option (Json × List Char)
  | 0, _ => none
  | fuel + 1, cs2 =>
    if cs2.headD 'A' = ']' then some (.arr [], cs2.tail)
    else
      match parseElems fuel cs2 with
      | some (es, r2) => some (.arr es, r2)
      | none => none

/-- Members of an object (the head of the input must be the quote of the
first key). -/
def parseMembers : Nat → List Char → Option (List (String × Json) × List Char)
  | 0, _ => none
  | fuel + 1, cs =>
    match cs with
    | '"' :: rest =>
      match parseStringBody fuel rest with
      | some (kcs, r1) =>
        match r1.dropWhile isJsonWs with
        | ':' :: r2 =>
          match parseValue fuel (r2.dropWhile isJsonWs) with
          | some (v, r3) =>
            match r3.dropWhile isJsonWs with
            | c :: r4 =>
              if c = ',' then
                match parseMembers fuel (r4.dropWhile isJsonWs) with
                | some (ms, r5) => some ((String.mk kcs, v) :: ms, r5)
                | none => none
              else if c = rbrace then some ([(String.mk kcs, v)], r4)
              else none
            | [] => none
          | none => none
        | _ => none
      | none => none
    | _ => none

/-- Elements of an array after the opening bracket and whitespace. -/
def parseElems : Nat → List Char → Option (List Json × List Char)
  | 0, _ => none
  | fuel + 1, cs =>
    match parseValue fuel cs with
    | some (v, r1) =>
      match r1.dropWhile isJsonWs with
      | ',' :: r2 =>
        match parseElems fuel (r2.dropWhile isJsonWs) with
        | some (es, r3) => some (v :: es, r3)
        | none => none
      | ']' :: r2 => some ([v], r2)
      | _ => none
    | none => none

end

/-- Model of Python `json.loads`: parse a whole string as one JSON value
(surrounding whitespace allowed), `none` on any decode error. -/
def jsonLoads (s : String) : Option Json :=
  match parseValue (4 * s.length + 16) (s.data.dropWhile isJsonWs) with
  | some (v, rest) => if rest.dropWhile isJsonWs = [] then some v else none
  | none => none

/-! ### Fallback extraction strategies of the response parser

`_parse_and_save_response` / `_parse_and_save_batch_response` try, in
order: direct `json.loads`, a fenced block found by
`` re.search(r'```json\s*(.*?)\s*```', text, re.DOTALL) ``, and the span
found by `re.search(r'\{.*\}', text, re.DOTALL)` (first opening brace to
last closing brace). -/

/-- The literal `` ```json `` that opens a fenced block. -/
def fenceOpenChars : List Char := [btick, btick, btick, 'j', 's', 'o', 'n']

/-- The literal `` ``` ``. -/
def tripleTick : List Char := [btick, btick, btick]

/-- Scan for the earliest position from which `\s*` followed by `` ``` ``
matches (the closing fence); the accumulated characters before it form
the lazily-matched group `(.*?)`. -/
def fenceBody : List Char → Option (List Char)
  | [] => none
  | c :: t =>
    if tripleTick.isPrefixOf ((c :: t).dropWhile isPySpace) then some []
    else
      match fenceBody t with
      | some g => some (c :: g)
      | none => none

/-- Scan for the first `` ```json `` opener that has a closing fence. -/
def fenceScan : List Char → Option (List Char)
  | [] => none
  | cs@(_ :: t) =>
    if fenceOpenChars.isPrefixOf cs then
      match fenceBody ((cs.drop 7).dropWhile isPySpace) with
      | some g => some g
      | none => fenceScan t
    else fenceScan t

/-- Group 1 of `` re.search(r'```json\s*(.*?)\s*```', s, re.DOTALL) ``. -/
def fenceExtract (s : String) : Option String :=
  (fenceScan s.data).map String.mk

/-- Whole match of `re.search(r'\{.*\}', s, re.DOTALL)`: with the greedy
`.*`, this is the span from the first `\x7b` to the last `\x7d`,
provided the latter comes after the former. -/
def braceExtract (s : String) : Option String :=
  match s.data.findIdx? (· = lbrace) with
  | none => none
  | some i =>
    match s.data.reverse.findIdx? (· = rbrace) with
    | none => none
    | some ri =>
      let j := s.data.length - 1 - ri
      if i < j then some (String.mk ((s.data.drop i).take (j - i + 1))) else none

/-- The `data` variable after the three extraction strategies of
`_parse_and_save_response` (lines 791-816) and
`_parse_and_save_batch_response` (lines 607-632): each later strategy
runs only while `data` is still falsy (`if not data:`), and overwrites
`data` only when its own `json.loads` succeeds. -/
def cascadeData (text : String) : Option Json :=
  let d1 := jsonLoads text
  let d2 :=
    if truthyOpt d1 then d1
    else
      match (fenceExtract text).bind jsonLoads with
      | some v => some v
      | none => d1
  if truthyOpt d2 then d2
  else
    match (braceExtract text).bind jsonLoads with
    | some v => some v
    | none => d2

/-! ### Saving parsed files

A saved file is a `(filename, content)` pair; the directory component is
common to the whole run and omitted from the model. -/

/-- `re.sub(r'^```markdown\s*', '', content)`: the anchored pattern can
only match a prefix, removing the opening fence and the whitespace run
after it. -/
def stripLeadFence (s : String) : String :=
  if (tripleTick ++ ['m', 'a', 'r', 'k', 'd', 'o', 'w', 'n']).isPrefixOf s.data then
    String.mk ((s.data.drop 11).dropWhile isPySpace)
  else s

/-- `re.sub(r'\s*```$', '', content)`: `$` matches at the end of the
string or just before a final newline, so the pattern strips a trailing
`` ``` `` (and the whitespace run before it), preserving a final
newline if the fence sits just before one. -/
def stripTrailFence (s : String) : String :=
  let r := s.data.reverse
  if tripleTick.isPrefixOf r then
    String.mk (((r.drop 3).dropWhile isPySpace).reverse)
  else if ('\n' :: tripleTick).isPrefixOf r then
    String.mk (('\n' :: ((r.drop 4).dropWhile isPySpace)).reverse)
  else s

/-- `_save_simple_markdown`: strip a markdown code-fence wrapper and save
the content as `<base_name>.md`. -/
def saveSimpleMarkdown (content base : String) : List (String × String) :=
  [(base ++ ".md", stripTrailFence (stripLeadFence content))]

/-- Filename normalisation shared by both parsing paths:
`if not filename.endswith('.md'): filename += '.md'`. -/
def ensureMd (f : String) : String :=
  if pyEnds f ".md" then f else f ++ ".md"

/-- Batch-path normalisation (lines 657-663): `.md` suffix, then
`if not filename.startswith(base_name): filename = f"{base_name}_{filename}"`. -/
def normBatch (base f : String) : String :=
  let f1 := ensureMd f
  if pyStarts f1 base then f1 else base ++ "_" ++ f1

/-! ### Duck-typed dictionary access on decoded values

The Python code probes the decoded value with `'files' in data`,
`data['files']`, iteration, and `file_info.get(...)`; on values of the
wrong shape these raise `TypeError` / `AttributeError`, modelled as
`Except.error` with the exception's message. -/

/-- `'files' in data` for a truthy decoded value: key test on a dict,
membership on a list, substring test on a string, `TypeError` otherwise. -/
def pyInFiles : Json → Except String Bool
  | .obj kvs => .ok ((kvs.find? (fun p => p.1 = "files")).isSome)
  | .arr xs => .ok (xs.any (fun v => match v with | .str s => s = "files" | _ => false))
  | .str s => .ok (pyContains s "files")
  | _ => .error "TypeError: argument of type is not iterable"

/-- `data['files']` once `'files' in data` succeeded. -/
def jIndexFiles : Json → Except String Json
  | .obj kvs =>
    match jlookupLast kvs "files" with
    | some v => .ok v
    | none => .error "KeyError: files"
  | .arr _ => .error "TypeError: list indices must be integers or slices, not str"
  | .str _ => .error "TypeError: string indices must be integers"
  | _ => .error "TypeError: object is not subscriptable"

/-- `for file_info in files_value`: lists iterate their elements; empty
strings and empty dicts iterate nothing; non-empty strings and dicts
yield string items whose `.get` immediately raises `AttributeError`;
other values are not iterable. -/
def iterEntries : Json → Except String (List Json)
  | .arr xs => .ok xs
  | .str s => if s = "" then .ok [] else .error "AttributeError: str object has no attribute get"
  | .obj kvs => if kvs.isEmpty then .ok [] else .error "AttributeError: str object has no attribute get"
  | _ => .error "TypeError: object is not iterable"

/-- Handling of one `file_info` entry (lines 649-654 / 829-834):
`file_info.get('filename', default)`, `file_info.get('content', '')`,
`if not content: continue` (`ok none`), then the two attribute accesses
that require string values; non-dict entries raise on `.get`. -/
def entryOut (dflt : String) (e : Json) : Except String (Option (String × String)) :=
  match e with
  | .obj kvs =>
    let fn := (jlookupLast kvs "filename").getD (.str dflt)
    let ct := (jlookupLast kvs "content").getD (.str "")
    if jtruthy ct then
      match fn, ct with
      | .str fs, .str cs => .ok (some (fs, cs))
      | .str _, _ => .error "TypeError: write() argument must be str"
      | _, _ => .error "AttributeError: object has no attribute endswith"
    else .ok none
  | _ => .error "AttributeError: object has no attribute get"

/-- Entry processing of `_parse_and_save_response` (lines 829-855):
default filename `output.md`, `.md` normalisation, write in order. -/
def processEntriesSingle : List Json → Except String (List (String × String))
  | [] => .ok []
  | e :: rest =>
    match entryOut "output.md" e with
    | .error m => .error m
    | .ok none => processEntriesSingle rest
    | .ok (some (fs, cs)) =>
      match processEntriesSingle rest with
      | .ok out => .ok ((ensureMd fs, cs) :: out)
      | .error m => .error m

/-- Entry processing of `_parse_and_save_batch_response` (lines 649-671):
same as the single path, except the filename default is `sheet_{idx}.md`
and the base name is prepended when missing. -/
def processEntriesBatch (base : String) : Nat → List Json → Except String (List (String × String))
  | _, [] => .ok []
  | idx, e :: rest =>
    match entryOut ("sheet_" ++ toString idx ++ ".md") e with
    | .error m => .error m
    | .ok none => processEntriesBatch base (idx + 1) rest
    | .ok (some (fs, cs)) =>
      match processEntriesBatch base (idx + 1) rest with
      | .ok out => .ok ((normBatch base fs, cs) :: out)
      | .error m => .error m

/-- `_parse_and_save_response` (lines 772-865).  Its `except` clause only
catches `json.JSONDecodeError` / `KeyError`, neither of which can occur
in the guarded code, so duck-typing errors propagate as `Except.error`. -/
def parseAndSaveResponse (text base : String) : Except String (List (String × String)) :=
  match cascadeData text with
  | none => .ok (saveSimpleMarkdown text base)
  | some v =>
    if jtruthy v then
      match pyInFiles v with
      | .error m => .error m
      | .ok false => .ok (saveSimpleMarkdown text base)
      | .ok true =>
        (jIndexFiles v).bind fun fv => (iterEntries fv).bind processEntriesSingle
    else .ok (saveSimpleMarkdown text base)

/-- `_parse_and_save_batch_response` (lines 580-678).  Its `except
Exception` clause catches everything and degrades to
`_save_simple_markdown(response_text, ..., f"{base_name}_batch_{batch_indices[0]}")`.
Callers always pass non-empty `batchIndices` (an empty list would raise
`IndexError` out of the Python function). -/
def parseAndSaveBatchResponse (text base : String) (batchIndices : List Nat) :
    List (String × String) :=
  let fallbackBase := base ++ "_batch_" ++ toString (batchIndices.headD 0)
  match cascadeData text with
  | none => saveSimpleMarkdown text fallbackBase
  | some v =>
    if jtruthy v then
      match pyInFiles v with
      | .error _ => saveSimpleMarkdown text fallbackBase
      | .ok false => saveSimpleMarkdown text fallbackBase
      | .ok true =>
        match (jIndexFiles v).bind fun fv => (iterEntries fv).bind (processEntriesBatch base 0) with
        | .ok out => out
        | .error _ => saveSimpleMarkdown text fallbackBase
    else saveSimpleMarkdown text fallbackBase

/-! ### Converter configuration

The fields set in `AIConverter.__init__`.  The instruction templates
(`SYSTEM_PROMPT` / `BATCH_SYSTEM_PROMPT`) are long fixed strings whose
content never matters to the verified properties — only their length
enters, through the token estimate — so the batch template is carried as
an ordinary field; the default `""` stands in for the fixed literal. -/

structure ConvCfg where
  modelName : String := "gemini-2.5-flash"
  additionalPrompt : String := ""
  maxRetries : Nat := 5
  initialRetryDelay : ℚ := 10
  maxTokensPerBatch : Nat := 800000
  avgCharsPerToken : Nat := 4
  minBatchSize : Nat := 1
  maxBatchSize : Nat := 20
  batchDelay : ℚ := 10
  batchSystemPrompt : String := ""

/-! ### Batch Planner (`_estimate_tokens`, `_calculate_batch_size`) -/

/-- `_estimate_tokens`: `len(text) // self.avg_chars_per_token`. -/
def estimateTokens (cfg : ConvCfg) (text : String) : Nat :=
  text.length / cfg.avgCharsPerToken

/-- Lines 244-246: estimate for the batch template plus, when non-empty,
the user-supplied additional prompt. -/
def systemPromptTokens (cfg : ConvCfg) : Nat :=
  estimateTokens cfg cfg.batchSystemPrompt +
    (if cfg.additionalPrompt ≠ "" then estimateTokens cfg cfg.additionalPrompt else 0)

/-- Lines 250-252: the per-sheet estimate, over
`f"=== SHEET: {sheet_name} ===\\n" + df.to_string(index=False)`
(the Python literal `\\n` is a backslash followed by `n`).  A sheet is
modelled as its name together with its rendered dataframe text. -/
def sheetTokens (cfg : ConvCfg) (sheet : String × String) : Nat :=
  estimateTokens cfg ("=== SHEET: " ++ sheet.1 ++ " ===\\n" ++ sheet.2)

/-- The greedy accumulation loop of `_calculate_batch_size`
(lines 248-274), over the per-sheet token estimates: `cur` / `curTok`
are `current_batch` / `current_tokens`, `idx` the enumeration index. -/
def calcAux (maxTok maxBatch sysTok : Nat) :
    List Nat → Nat → List Nat → Nat → List (List Nat)
  | [], _, cur, _ => if cur = [] then [] else [cur]
  | t :: rest, idx, cur, curTok =>
    if sysTok + curTok + t > maxTok ∧ cur ≠ [] then
      cur :: calcAux maxTok maxBatch sysTok rest (idx + 1) [idx] t
    else if maxBatch ≤ cur.length then
      cur :: calcAux maxTok maxBatch sysTok rest (idx + 1) [idx] t
    else
      calcAux maxTok maxBatch sysTok rest (idx + 1) (cur ++ [idx]) (curTok + t)

/-- `_calculate_batch_size`: group sheet indices into batches. -/
def calculateBatchSize (cfg : ConvCfg) (sheets : List (String × String)) :
    List (List Nat) :=
  calcAux cfg.maxTokensPerBatch cfg.maxBatchSize (systemPromptTokens cfg)
    (sheets.map (sheetTokens cfg)) 0 [] 0

/-! ### Generation Client retry loop

The identical retry loops of `_generate_and_save` (lines 701-754) and
`_generate_and_save_batch` (lines 512-556).  The external API is an
oracle mapping the attempt number to the call's outcome; the model
returns the final result, the ordered list of slept durations, and the
number of client calls made. -/

/-- Outcome of one API call of the oracle client. -/
inductive CallResult where
  | ok (text : String)
  | err (msg : String)

/-- `'429' in str_error or 'quota' in str_error.lower()`. -/
def isRateLimit (e : String) : Bool :=
  pyContains e "429" || pyContains (pyLower e) "quota"

/-- The number match of `re.search(r'retry in (\d+(\.\d+)?)s', e)` at a
fixed position: digits, an optional fraction, then a literal `s`.  The
decimal `ds.fs` is the exact rational `(ds * 10^|fs| + fs) / 10^|fs|`. -/
def parseWaitNum (cs : List Char) : Option ℚ :=
  let ds := cs.takeWhile Char.isDigit
  if ds.isEmpty then none
  else
    match cs.drop ds.length with
    | '.' :: t =>
      let fs := t.takeWhile Char.isDigit
      if fs.isEmpty then none
      else
        match t.drop fs.length with
        | 's' :: _ =>
          some (mkRat (Int.ofNat (digitsToNat ds * 10 ^ fs.length + digitsToNat fs))
            (10 ^ fs.length))
        | _ => none
    | 's' :: _ => some (mkRat (Int.ofNat (digitsToNat ds)) 1)
    | _ => none

/-- Leftmost-match scan for `retry in (\d+(\.\d+)?)s`. -/
def scanRetryWait : List Char → Option ℚ
  | [] => none
  | cs@(_ :: t) =>
    if ("retry in ".data).isPrefixOf cs then
      match parseWaitNum (cs.drop 9) with
      | some q => some q
      | none => scanRetryWait t
    else scanRetryWait t

/-- Server-suggested wait extracted from a rate-limit error message. -/
def extractRetryWait (e : String) : Option ℚ := scanRetryWait e.data

deriving instance DecidableEq for Except

/-- Rational addition in a kernel-evaluable form (`Rat.add` is marked
irreducible); `qadd_eq` below proves it is `+`. -/
def qadd (a b : ℚ) : ℚ :=
  mkRat (a.num * (b.den : Int) + b.num * (a.den : Int)) (a.den * b.den)

/-- `d * 2 ^ n`, computed by repeated doubling (see `expBackoff_eq`). -/
def expBackoff (d : ℚ) : Nat → ℚ
  | 0 => d
  | n + 1 => qadd (expBackoff d n) (expBackoff d n)

/-- Final state of the retry loop. -/
structure RetryOutcome where
  result : Except String String
  sleeps : List ℚ
  calls : Nat
deriving DecidableEq

/-- One turn of `for attempt in range(self.max_retries)` with attempt
number `maxR - rem`: the backoff sleep at the top of the iteration, the
API call, and the error classification of the `except` block.  The two
code paths that merely fall through to the end of the loop body
(`'rate limit exceeded'` on the last attempt, and any error on the last
attempt) behave exactly like `continue`, since the loop has no further
iterations there. -/
def retryAux (maxR : Nat) (delay0 : ℚ) (client : Nat → CallResult) :
    Nat → Option String → List ℚ → Nat → RetryOutcome
  | 0, lastErr, sleeps, calls =>
    ⟨.error (lastErr.getD "Failed to get response from AI (Unknown Error)"), sleeps, calls⟩
  | rem + 1, _lastErr, sleeps, calls =>
    let attempt := maxR - (rem + 1)
    let sleeps := if 0 < attempt then sleeps ++ [expBackoff delay0 (attempt - 1)] else sleeps
    match client attempt with
    | .ok t => ⟨.ok t, sleeps, calls + 1⟩
    | .err e =>
      if isRateLimit e then
        match extractRetryWait e with
        | some w => retryAux maxR delay0 client rem (some e) (sleeps ++ [qadd w (mkRat 3 2)]) (calls + 1)
        | none => retryAux maxR delay0 client rem (some e) sleeps (calls + 1)
      else
        if attempt = maxR - 1 then retryAux maxR delay0 client rem (some e) sleeps (calls + 1)
        else ⟨.error e, sleeps, calls + 1⟩

/-- The whole retry loop, from `for attempt in range(self.max_retries)`
down to `if response is None: raise last_error or Exception(...)`. -/
def generateWithRetry (cfg : ConvCfg) (client : Nat → CallResult) : RetryOutcome :=
  retryAux cfg.maxRetries cfg.initialRetryDelay client cfg.maxRetries none [] 0

/-! ### Conversion Coordinator (`convert_file`, `convert`) -/

/-- A structured error entry `{'file': ..., 'error': ...}`. -/
structure ErrorEntry where
  file : String
  error : String
deriving DecidableEq

/-- `_friendly_error_message` (lines 467-475). -/
def friendlyErrorMessage (modelName msg : String) : String :=
  if pyContains msg "API key not valid" then
    "API Key không hợp lệ."
  else if pyContains (pyLower msg) "quota" || pyContains msg "429" then
    "Đã hết hạn ngạch (Quota exceeded) hoặc gửi quá nhanh."
  else if pyContains (pyLower msg) "not found" && pyContains (pyLower msg) "model" then
    "Model \x27" ++ modelName ++ "\x27 không tồn tại hoặc không được hỗ trợ."
  else msg

/-- `Path(p).name`: the final path component (the characters after the
last `/`; paths with a trailing slash do not occur in this code). -/
def pathName (p : String) : String :=
  String.mk ((p.data.reverse.takeWhile (· ≠ '/')).reverse)

/-- Index of the last `.` in a name, if any (`name.rfind('.')`). -/
def rfindDot (cs : List Char) : Option Nat :=
  (cs.reverse.findIdx? (· = '.')).map (fun r => cs.length - 1 - r)

/-- `Path(p).suffix`: the extension of the final component, empty when
the only dot is leading or trailing. -/
def pathSuffix (nm : String) : String :=
  match rfindDot nm.data with
  | some i => if 0 < i ∧ i < nm.data.length - 1 then String.mk (nm.data.drop i) else ""
  | none => ""

/-- `Path(p).stem`: the final component without its suffix. -/
def pathStem (nm : String) : String :=
  match rfindDot nm.data with
  | some i => if 0 < i ∧ i < nm.data.length - 1 then String.mk (nm.data.take i) else nm

  | none => nm

/-- Oracles for the effectful collaborators of `convert_file`: reading
the workbook / CSV (pandas), and the generate-and-save pipeline for one
batch (`_generate_and_save_batch`, keyed by the batch's sheet indices)
or one table (`_generate_and_save`, keyed by the `base_name` argument it
receives).  A sheet is its name paired with its rendered text. -/
structure Env where
  readExcel : Except String (List (String × String))
  readCSV : Except String String
  genBatch : List Nat → Except String (List String)
  genSingle : String → Bool → Except String (List String)

/-- One recorded call to the generation pipeline; the boolean is the
`is_single_sheet` flag selecting the single-table template. -/
inductive CallRec where
  | batchCall (indices : List Nat)
  | singleCall (baseArg : String) (isSingleSheet : Bool)
deriving DecidableEq

/-- Observable outcome of `convert_file`: the returned file list and
error list, plus the trace of slept durations and pipeline calls. -/
structure FileOutcome where
  created : List String
  errors : List ErrorEntry
  sleeps : List ℚ
  callLog : List CallRec
deriving DecidableEq

/-- Empty accumulator state. -/
def outEmpty : FileOutcome := ⟨[], [], [], []⟩

/-- Appending the observations of a later program fragment. -/
def outAppend (a b : FileOutcome) : FileOutcome :=
  ⟨a.created ++ b.created, a.errors ++ b.errors, a.sleeps ++ b.sleeps, a.callLog ++ b.callLog⟩

/-- Concatenated observations of a list of fragments. -/
def outConcat (l : List FileOutcome) : FileOutcome := l.foldr outAppend outEmpty

/-- The per-sheet fallback loop (lines 392-424): for each sheet of the
failed batch, sleep 5s unless it is the batch's first index, call
`_generate_and_save` with `base_name_sheetname` and the single-table
template, and turn a per-sheet failure into one error entry. -/
def fallbackLoop (env : Env) (cfg : ConvCfg) (fileName base : String)
    (sheets : List (String × String)) (first : Nat) :
    List Nat → FileOutcome → FileOutcome
  | [], acc => acc
  | i :: rest, acc =>
    let nm := (sheets.getD i ("", "")).1
    let acc := if i ≠ first then { acc with sleeps := acc.sleeps ++ [(5 : ℚ)] } else acc
    let acc := { acc with callLog := acc.callLog ++ [CallRec.singleCall (base ++ "_" ++ nm) true] }
    match env.genSingle (base ++ "_" ++ nm) true with
    | .ok fs =>
      fallbackLoop env cfg fileName base sheets first rest
        { acc with created := acc.created ++ fs }
    | .error m =>
      fallbackLoop env cfg fileName base sheets first rest
        { acc with errors := acc.errors ++
            [ErrorEntry.mk (fileName ++ " - " ++ nm) (friendlyErrorMessage cfg.modelName m)] }

/-- The batch loop of `convert_file` (lines 360-424): inter-batch delay,
batch call, and on any batch exception the per-sheet fallback. -/
def batchLoop (env : Env) (cfg : ConvCfg) (fileName base : String)
    (sheets : List (String × String)) :
    List (Nat × List Nat) → FileOutcome → FileOutcome
  | [], acc => acc
  | (bidx, indices) :: rest, acc =>
    let acc := if 0 < bidx then { acc with sleeps := acc.sleeps ++ [cfg.batchDelay] } else acc
    let acc := { acc with callLog := acc.callLog ++ [CallRec.batchCall indices] }
    match env.genBatch indices with
    | .ok fs =>
      batchLoop env cfg fileName base sheets rest { acc with created := acc.created ++ fs }
    | .error _ =>
      batchLoop env cfg fileName base sheets rest
        (fallbackLoop env cfg fileName base sheets (indices.headD 0) indices acc)

/-- `convert_file` (lines 319-465): dispatch on the lower-cased suffix;
Excel files run the planner and the batch loop, CSV files one
single-table call, anything else is unsupported; every fatal error is
converted to a single friendly error entry by the outer handler.  The
CSV `try` (lines 433-452) encloses `_generate_and_save` as well as the
read, so a generation failure is also re-raised wrapped as
`Lỗi khi đọc file CSV: ...` before reaching the outer handler. -/
def convertFile (env : Env) (cfg : ConvCfg) (path : String) : FileOutcome :=
  let fileName := pathName path
  let ext := pyLower (pathSuffix fileName)
  let base := pathStem fileName
  if ext = ".xlsx" ∨ ext = ".xls" then
    match env.readExcel with
    | .error m =>
      ⟨[], [⟨fileName, friendlyErrorMessage cfg.modelName ("Lỗi khi đọc file Excel: " ++ m)⟩], [], []⟩
    | .ok sheets =>
      batchLoop env cfg fileName base sheets (calculateBatchSize cfg sheets).enum outEmpty
  else if ext = ".csv" then
    match env.readCSV with
    | .error m =>
      ⟨[], [⟨fileName, friendlyErrorMessage cfg.modelName ("Lỗi khi đọc file CSV: " ++ m)⟩], [], []⟩
    | .ok _ =>
      match env.genSingle base false with
      | .ok fs => ⟨fs, [], [], [.singleCall base false]⟩
      | .error m =>
        ⟨[], [⟨fileName, friendlyErrorMessage cfg.modelName ("Lỗi khi đọc file CSV: " ++ m)⟩],
          [], [.singleCall base false]⟩
  else
    ⟨[], [⟨fileName, friendlyErrorMessage cfg.modelName ("Unsupported file type: " ++ ext)⟩], [], []⟩

/-- Input of `convert`: a single file path, or a directory modelled by
the list of names it contains (in listing order). -/
inductive InputPath where
  | file (p : String)
  | dir (listing : List String)

/-- `convert` (lines 898-938): a single file is processed as-is; a
directory contributes the names matched by the literal glob patterns
`*.xlsx`, `*.xls`, `*.csv`, in that pattern order (POSIX glob is
case-sensitive).  `convert_file` never raises in the model, so the
defensive `except` around it is dead code. -/
def convert (envOf : String → Env) (cfg : ConvCfg) (inp : InputPath) :
    List String × List ErrorEntry :=
  let files := match inp with
    | .file p => [p]
    | .dir listing =>
      listing.filter (fun nm => pyEnds nm ".xlsx") ++
      listing.filter (fun nm => pyEnds nm ".xls") ++
      listing.filter (fun nm => pyEnds nm ".csv")
  files.foldr
    (fun p acc =>
      let o := convertFile (envOf p) cfg p
      (o.created ++ acc.1, o.errors ++ acc.2))
    ([], [])

/-- The `(filename, content)` pair of a well-formed entry: a dict with
string values under both keys.  Used to state which entries the claims
about structured responses quantify over. -/
def entryParts : Json → Option (String × String)
  | .obj kvs =>
    match jlookupLast kvs "filename", jlookupLast kvs "content" with
    | some (.str f), some (.str c) => some (f, c)
    | _, _ => none
  | _ => none

/-- Observable contribution of one sheet processed by the per-sheet
fallback (lines 392-424), as a standalone value. -/
def sheetFallbackOut (env : Env) (cfg : ConvCfg) (fileName base : String)
    (sheets : List (String × String)) (first : Nat) (i : Nat) : FileOutcome :=
  let nm := (sheets.getD i ("", "")).1
  let slp : List ℚ := if i ≠ first then [(5 : ℚ)] else []
  match env.genSingle (base ++ "_" ++ nm) true with
  | .ok fs => ⟨fs, [], slp, [CallRec.singleCall (base ++ "_" ++ nm) true]⟩
  | .error m =>
    ⟨[], [⟨fileName ++ " - " ++ nm, friendlyErrorMessage cfg.modelName m⟩], slp,
      [CallRec.singleCall (base ++ "_" ++ nm) true]⟩

/-- Observable contribution of one enumerated batch of the batch loop
(lines 360-424), as a standalone value. -/
def batchOut (env : Env) (cfg : ConvCfg) (fileName base : String)
    (sheets : List (String × String)) (p : Nat × List Nat) : FileOutcome :=
  let pre : FileOutcome :=
    ⟨[], [], if 0 < p.1 then [cfg.batchDelay] else [], [CallRec.batchCall p.2]⟩
  match env.genBatch p.2 with
  | .ok fs => { pre with created := fs }
  | .error _ =>
    outAppend pre
      (outConcat (p.2.map (sheetFallbackOut env cfg fileName base sheets (p.2.headD 0))))

/-! ### Concrete instances used by witnesses and counterexamples -/

/-- A two-sheet workbook environment whose batch call always fails and
whose per-sheet fallback fails on the second sheet only. -/
def fallbackEnv : Env :=
  ⟨.ok [("S1", "d1"), ("S2", "d2")], .ok "csv",
   fun _ => .error "bfail",
   fun b _ => if b = "wb_S2" then .error "API key not valid" else .ok [b ++ ".out"]⟩

/-- An environment whose workbook read fails. -/
def readErrEnv : Env :=
  ⟨.error "corrupt", .ok "csv", fun _ => .error "bfail", fun _ _ => .ok []⟩

/-- A client that always fails with a non-rate-limit error. -/
def alwaysBoomClient : Nat → CallResult := fun _ => .err "boom"

/-- A client whose first call fails with a rate-limit error carrying
`retry in 2s` and whose second call succeeds. -/
def retryIn2sClient : Nat → CallResult := fun n =>
  if n = 0 then .err "429 RESOURCE_EXHAUSTED: Please retry in 2s." else .ok "success"

/-- The batch invariant of the planner: within token budget and size
bound, or a single (possibly oversized) sheet. -/
def batchOk (maxTok maxBatch sysTok : Nat) (v : Nat → Nat) (b : List Nat) : Prop :=
  (sysTok + (b.map v).sum ≤ maxTok ∧ b.length ≤ maxBatch) ∨ b.length = 1

/-! ## Theorems -/

/-- `qadd` agrees with rational addition. -/
theorem qadd_eq (a b : ℚ) : qadd a b = a + b := by
  have ha : ((a.den : ℚ)) ≠ 0 := by exact_mod_cast a.den_nz
  have hb : ((b.den : ℚ)) ≠ 0 := by exact_mod_cast b.den_nz
  unfold qadd
  rw [Rat.mkRat_eq_div]
  push_cast
  conv_rhs => rw [← Rat.num_div_den a, ← Rat.num_div_den b]
  field_simp

/-- `expBackoff` is the exponential-backoff formula
`initial_retry_delay * (2 ** (attempt - 1))` of lines 516 and 706. -/
theorem expBackoff_eq (d : ℚ) (n : Nat) : expBackoff d n = d * 2 ^ n := by
  induction n with
  | zero => simp [expBackoff]
  | succ n ih => rw [expBackoff, qadd_eq, ih, pow_succ]; ring

/-- `getD` after `map`, inside the list's range. -/
theorem getD_map_lt {α β : Type} (f : α → β) (d : α) (db : β) :
    ∀ (l : List α) (j : Nat), j < l.length → (l.map f).getD j db = f (l.getD j d) := by
  intro l
  induction l with
  | nil => intro j hj; simp at hj
  | cons a l ih =>
    intro j hj
    cases j with
    | zero => simp
    | succ j => simpa using ih j (by simpa using Nat.lt_of_succ_lt_succ hj)

/-- The batches produced by `calcAux` concatenate, in order, to the
still-unprocessed index range appended to the running batch. -/
theorem calcAux_flatten (maxTok maxBatch sysTok : Nat) :
    ∀ (ts : List Nat) (idx : Nat) (cur : List Nat) (curTok : Nat),
      (calcAux maxTok maxBatch sysTok ts idx cur curTok).flatten =
        cur ++ List.range' idx ts.length := by
  intro ts
  induction ts with
  | nil =>
    intro idx cur curTok
    by_cases h : cur = [] <;> simp [calcAux, h]
  | cons t rest ih =>
    intro idx cur curTok
    rw [calcAux]
    split
    · simp [ih, List.range'_succ]
    · split
      · simp [ih, List.range'_succ]
      · rw [ih]
        simp [List.range'_succ]

/-- Every batch emitted by `calcAux` satisfies `batchOk`, provided the
running batch does and the remaining token list agrees with the global
token assignment `v`. -/
theorem calcAux_budget (maxTok maxBatch sysTok : Nat) (v : Nat → Nat)
    (hmb : 1 ≤ maxBatch) :
    ∀ (ts : List Nat) (idx : Nat) (cur : List Nat) (curTok : Nat),
      (∀ j, j < ts.length → ts.getD j 0 = v (idx + j)) →
      curTok = (cur.map v).sum →
      (cur = [] ∨ batchOk maxTok maxBatch sysTok v cur) →
      ∀ b ∈ calcAux maxTok maxBatch sysTok ts idx cur curTok,
        batchOk maxTok maxBatch sysTok v b := by
  intro ts
  induction ts with
  | nil =>
    intro idx cur curTok _ _ hP b hb
    rw [calcAux] at hb
    split at hb
    · simp at hb
    · simp at hb
      subst hb
      rcases hP with h | h
      · simp_all
      · exact h
  | cons t rest ih =>
    intro idx cur curTok hv hcur hP b hb
    have ht : t = v idx := by
      have := hv 0 (by simp)
      simpa using this
    have hv' : ∀ j, j < rest.length → rest.getD j 0 = v (idx + 1 + j) := by
      intro j hj
      have := hv (j + 1) (by simpa using Nat.succ_lt_succ hj)
      simpa [Nat.add_assoc, Nat.add_comm 1 j] using this
    rw [calcAux] at hb
    split at hb
    · rename_i hcond
      rcases List.mem_cons.mp hb with rfl | hb'
      · rcases hP with rfl | h
        · exact absurd rfl hcond.2
        · exact h
      · exact ih (idx + 1) [idx] t hv' (by simp [ht]) (Or.inr (Or.inr rfl)) b hb'
    · split at hb
      · rename_i hcond hlen
        rcases List.mem_cons.mp hb with rfl | hb'
        · rcases hP with rfl | h
          · simp at hlen; omega
          · exact h
        · exact ih (idx + 1) [idx] t hv' (by simp [ht]) (Or.inr (Or.inr rfl)) b hb'
      · rename_i hcond hlen
        refine ih (idx + 1) (cur ++ [idx]) (curTok + t) hv' (by simp [hcur, ht]) ?_ b hb
        right
        rcases eq_or_ne cur [] with rfl | hne
        · exact Or.inr (by simp)
        · left
          constructor
          · have hle : ¬(sysTok + curTok + t > maxTok ∧ cur ≠ []) := hcond
            push_neg at hle
            have hle2 : sysTok + curTok + t ≤ maxTok := by
              by_contra hgt
              exact hne (hle (by omega))
            simp [hcur, ht] at hle2 ⊢
            omega
          · simp
            omega

/-- C1: for every ordered sheet list and every configuration with a
positive batch-size cap (the code fixes it at 20), `_calculate_batch_size`
returns batches of indices whose in-order concatenation is exactly
`0, 1, ..., n-1` — every index in exactly one batch, order preserved —
and every batch either fits the token budget (sum of per-sheet estimates
plus the instruction-template estimate) and the size cap, or consists of
exactly one sheet. -/
theorem c1_calculateBatchSize_partition (cfg : ConvCfg)
    (sheets : List (String × String)) (hmb : 1 ≤ cfg.maxBatchSize) :
    (calculateBatchSize cfg sheets).flatten = List.range sheets.length ∧
    ∀ b ∈ calculateBatchSize cfg sheets,
      (systemPromptTokens cfg +
          (b.map (fun i => sheetTokens cfg (sheets.getD i ("", "")))).sum ≤
            cfg.maxTokensPerBatch
        ∧ b.length ≤ cfg.maxBatchSize)
      ∨ b.length = 1 := by
  constructor
  · rw [calculateBatchSize, calcAux_flatten]
    simp [List.range_eq_range']
  · intro b hb
    exact calcAux_budget cfg.maxTokensPerBatch cfg.maxBatchSize (systemPromptTokens cfg)
      (fun i => sheetTokens cfg (sheets.getD i ("", ""))) hmb
      (sheets.map (sheetTokens cfg)) 0 [] 0
      (by
        intro j hj
        simp only [List.length_map] at hj
        rw [getD_map_lt _ ("", "")]
        · simp
        · exact hj)
      rfl (Or.inl rfl) b hb

/-- C1, witness: the theorem at a concrete two-sheet workbook and the
default configuration. -/
theorem c1_witness :
    1 ≤ ({} : ConvCfg).maxBatchSize ∧
    ((calculateBatchSize {} [("A", "x"), ("B", "y")]).flatten = List.range 2 ∧
      ∀ b ∈ calculateBatchSize {} [("A", "x"), ("B", "y")],
        (systemPromptTokens {} +
            (b.map (fun i =>
              sheetTokens {} ([("A", "x"), ("B", "y")].getD i ("", "")))).sum ≤
              ({} : ConvCfg).maxTokensPerBatch
          ∧ b.length ≤ ({} : ConvCfg).maxBatchSize)
        ∨ b.length = 1) :=
  ⟨by decide, c1_calculateBatchSize_partition {} [("A", "x"), ("B", "y")] (by decide)⟩

/-- `pyEnds` is list-level suffix. -/
theorem pyEnds_iff (s suf : String) : pyEnds s suf = true ↔ suf.data <:+ s.data := by
  unfold pyEnds
  exact List.isSuffixOf_iff_suffix

/-- `pyStarts` is list-level prefix. -/
theorem pyStarts_iff (s pre : String) : pyStarts s pre = true ↔ pre.data <+: s.data := by
  unfold pyStarts
  exact List.isPrefixOf_iff_prefix

/-- Characters of a concatenation. -/
theorem data_append (a b : String) : (a ++ b).data = a.data ++ b.data :=
  String.data_append a b

/-- A concatenation ends with its right part. -/
theorem pyEnds_append (a b : String) : pyEnds (a ++ b) b = true := by
  rw [pyEnds_iff, data_append]
  exact List.suffix_append a.data b.data

/-- A concatenation starts with its left part. -/
theorem pyStarts_append (a b : String) : pyStarts (a ++ b) a = true := by
  rw [pyStarts_iff, data_append]
  exact List.prefix_append a.data b.data

/-- Prepending preserves a suffix. -/
theorem pyEnds_of_append_left (a f suf : String) (h : pyEnds f suf = true) :
    pyEnds (a ++ f) suf = true := by
  rw [pyEnds_iff] at h ⊢
  rw [data_append]
  exact h.trans (List.suffix_append a.data f.data)

/-- Appending preserves the start of a string. -/
theorem pyStarts_of_append_right (s t pre : String) (h : pyStarts s pre = true) :
    pyStarts (s ++ t) pre = true := by
  rw [pyStarts_iff] at h ⊢
  rw [data_append]
  exact h.trans (List.prefix_append s.data t.data)

/-- The `.md` normalisation really yields the `.md` suffix. -/
theorem ensureMd_ends (f : String) : pyEnds (ensureMd f) ".md" = true := by
  unfold ensureMd
  split
  · assumption
  · exact pyEnds_append f ".md"

/-- Batch normalisation keeps the `.md` suffix. -/
theorem normBatch_ends (base f : String) : pyEnds (normBatch base f) ".md" = true := by
  unfold normBatch
  dsimp only
  split
  · exact ensureMd_ends f
  · have := ensureMd_ends f
    rw [show base ++ "_" ++ ensureMd f = base ++ ("_" ++ ensureMd f) by rw [String.append_assoc]]
    exact pyEnds_of_append_left _ _ _ (pyEnds_of_append_left _ _ _ this)

/-- Batch normalisation makes the file name start with the base name. -/
theorem normBatch_starts (base f : String) : pyStarts (normBatch base f) base = true := by
  unfold normBatch
  dsimp only
  split
  · assumption
  · rw [show base ++ "_" ++ ensureMd f = base ++ ("_" ++ ensureMd f) by rw [String.append_assoc]]
    exact pyStarts_append base _

/-- Every file saved by the batch entry loop has the `.md` suffix and the
base-name start. -/
theorem processEntriesBatch_names (base : String) :
    ∀ (es : List Json) (idx : Nat) (out : List (String × String)),
      processEntriesBatch base idx es = .ok out →
      ∀ f ∈ out, pyEnds f.1 ".md" = true ∧ pyStarts f.1 base = true := by
  intro es
  induction es with
  | nil =>
    intro idx out h f hf
    rw [processEntriesBatch] at h
    cases h
    simp at hf
  | cons e rest ih =>
    intro idx out h f hf
    rw [processEntriesBatch] at h
    split at h
    · exact Except.noConfusion h
    · exact ih (idx + 1) out h f hf
    · split at h
      · cases h
        rcases List.mem_cons.mp hf with rfl | hf'
        · exact ⟨normBatch_ends base _, normBatch_starts base _⟩
        · rename_i hout hrec
          exact ih (idx + 1) _ hrec f hf'
      · exact Except.noConfusion h

/-- Every file saved by the single-table entry loop has the `.md` suffix. -/
theorem processEntriesSingle_names :
    ∀ (es : List Json) (out : List (String × String)),
      processEntriesSingle es = .ok out →
      ∀ f ∈ out, pyEnds f.1 ".md" = true := by
  intro es
  induction es with
  | nil =>
    intro out h f hf
    rw [processEntriesSingle] at h
    cases h
    simp at hf
  | cons e rest ih =>
    intro out h f hf
    rw [processEntriesSingle] at h
    split at h
    · exact Except.noConfusion h
    · exact ih out h f hf
    · split at h
      · cases h
        rcases List.mem_cons.mp hf with rfl | hf'
        · exact ensureMd_ends _
        · rename_i hout hrec
          exact ih _ hrec f hf'
      · exact Except.noConfusion h

/-- The single fallback file is named `<base>.md`. -/
theorem saveSimple_mem (content nm : String) (f : String × String)
    (hf : f ∈ saveSimpleMarkdown content nm) : f.1 = nm ++ ".md" := by
  unfold saveSimpleMarkdown at hf
  simp at hf
  rw [hf]

/-- `cascadeData` stops at the first strategy when direct parsing yields
a truthy value. -/
theorem cascade_of_truthy (text : String) (v : Json)
    (hp : jsonLoads text = some v) (ht : jtruthy v = true) :
    cascadeData text = some v := by
  unfold cascadeData
  rw [hp]
  simp [truthyOpt, ht]

/-- A dict with a successful lookup is non-empty. -/
theorem jlookupLast_ne_nil {kvs : List (String × Json)} {k : String} {x : Json}
    (h : jlookupLast kvs k = some x) : kvs ≠ [] := by
  intro hnil
  subst hnil
  simp [jlookupLast] at h

/-- `'files' in data` succeeds on a dict that has the binding. -/
theorem pyInFiles_of_lookup {kvs : List (String × Json)} {x : Json}
    (h : jlookupLast kvs "files" = some x) : pyInFiles (.obj kvs) = .ok true := by
  simp only [pyInFiles]
  congr 1
  unfold jlookupLast at h
  rcases hf : kvs.reverse.find? (fun p => p.1 = "files") with _ | p
  · rw [hf] at h; simp at h
  · have hmem : p ∈ kvs.reverse := List.mem_of_find?_eq_some hf
    have hpk : p.1 = "files" := by
      have := List.find?_some hf
      simpa using this
    rw [List.find?_isSome]
    exact ⟨p, List.mem_reverse.mp hmem, by simpa using hpk⟩

/-- `entryOut` on a well-formed entry: skip on empty content, else the
pair itself. -/
theorem entryOut_of_entryParts (dflt : String) (e : Json) (f c : String)
    (h : entryParts e = some (f, c)) :
    entryOut dflt e = .ok (if c = "" then none else some (f, c)) := by
  cases e <;> simp only [entryParts] at h <;> try exact Option.noConfusion h
  rename_i kvs
  split at h
  · rename_i f0 c0 hf0 hc0
    cases h
    rw [entryOut]
    rw [hf0, hc0]
    simp only [Option.getD_some]
    by_cases hc : c = ""
    · simp [hc, jtruthy]
    · simp [hc, jtruthy]
  · exact Option.noConfusion h

/-- The single-path entry loop on well-formed entries keeps exactly the
non-empty-content entries, `.md`-normalised, in order. -/
theorem processEntriesSingle_wf :
    ∀ (es : List Json), (∀ e ∈ es, (entryParts e).isSome) →
      processEntriesSingle es =
        .ok (es.filterMap (fun e =>
          (entryParts e).bind (fun p =>
            if p.2 = "" then none else some (ensureMd p.1, p.2)))) := by
  intro es
  induction es with
  | nil => intro _; rw [processEntriesSingle]; simp
  | cons e rest ih =>
    intro hwf
    obtain ⟨⟨f, c⟩, hp⟩ := Option.isSome_iff_exists.mp (hwf e (by simp))
    have hrest := ih (fun e' he' => hwf e' (by simp [he']))
    rw [processEntriesSingle, entryOut_of_entryParts "output.md" e f c hp]
    by_cases hc : c = ""
    · simp only [hc, if_pos rfl]
      rw [hrest]
      simp [hp, hc]
    · simp only [if_neg hc]
      rw [hrest]
      simp [hp, hc]

/-- The batch-path entry loop on well-formed entries keeps exactly the
non-empty-content entries, normalised and base-prefixed, in order. -/
theorem processEntriesBatch_wf (base : String) :
    ∀ (es : List Json) (idx : Nat), (∀ e ∈ es, (entryParts e).isSome) →
      processEntriesBatch base idx es =
        .ok (es.filterMap (fun e =>
          (entryParts e).bind (fun p =>
            if p.2 = "" then none else some (normBatch base p.1, p.2)))) := by
  intro es
  induction es with
  | nil => intro idx _; rw [processEntriesBatch]; simp
  | cons e rest ih =>
    intro idx hwf
    obtain ⟨⟨f, c⟩, hp⟩ := Option.isSome_iff_exists.mp (hwf e (by simp))
    have hrest := ih (idx + 1) (fun e' he' => hwf e' (by simp [he']))
    rw [processEntriesBatch, entryOut_of_entryParts _ e f c hp]
    by_cases hc : c = ""
    · simp only [hc, if_pos rfl]
      rw [hrest]
      simp [hp, hc]
    · simp only [if_neg hc]
      rw [hrest]
      simp [hp, hc]

/-- C4, counterexample: structured extraction can succeed with an empty
`files` list, in which case the parser returns the empty list — not a
list with at least one `ParsedFile` as the claim states. -/
theorem c4_counterexample :
    parseAndSaveResponse "\x7b\"files\": []\x7d" "out" = .ok [] ∧
    ([] : List (String × String)).length = 0 :=
  ⟨by decide, rfl⟩

/-- C4 (amended): whenever no extraction strategy yields a truthy value
with a `'files'` member, `_parse_and_save_response` returns (without
raising) exactly one file, named `<base>.md`, whose content is the whole
raw text with a leading ```` ```markdown ```` fence and a trailing fence
stripped; when a truthy `files` object is extracted the result may be
empty (empty list, or all entries with empty content). -/
theorem c4_unstructured_single_fallback (text base : String)
    (h : ∀ v, cascadeData text = some v → jtruthy v = true → pyInFiles v = .ok false) :
    parseAndSaveResponse text base =
      .ok [(base ++ ".md", stripTrailFence (stripLeadFence text))] := by
  unfold parseAndSaveResponse
  split
  · rfl
  · rename_i v hv
    split
    · rename_i ht
      rw [h v hv ht]
      rfl
    · rfl

/-- C4, witness: the amended theorem at a plain-text response, on which
every extraction strategy fails. -/
theorem c4_witness :
    parseAndSaveResponse "hello world" "out" = .ok [("out.md", "hello world")] := by
  have := c4_unstructured_single_fallback "hello world" "out" (by
    intro v hv _
    rw [show cascadeData "hello world" = none from rfl] at hv
    exact Option.noConfusion hv)
  exact this.trans (by decide)

/-- C8, counterexample: an entry with empty content is silently dropped,
so the parser does not return exactly the files of the `files` list — the
normalised entry `("a.md", "")` is missing from the output. -/
theorem c8_counterexample :
    parseAndSaveResponse "\x7b\"files\": [\x7b\"filename\": \"a\", \"content\": \"\"\x7d]\x7d" "b"
      = .ok [] ∧
    ((Except.ok [] : Except String (List (String × String))) ≠ .ok [("a.md", "")]) :=
  ⟨by decide, by decide⟩

/-- C8 (amended): for a raw response that is valid JSON — an object whose
`files` member is a list of well-formed `{filename, content}` entries —
both parsing paths return exactly the entries with non-empty content,
in the order of the `files` list, after filename normalisation (`.md`
suffix; plus base-name prefixing on the batch path); empty-content
entries are silently dropped. -/
theorem c8_structured_files_roundtrip (text base : String) (idxs : List Nat)
    (kvs : List (String × Json)) (entries : List Json)
    (hp : jsonLoads text = some (.obj kvs))
    (hfl : jlookupLast kvs "files" = some (.arr entries))
    (hwf : ∀ e ∈ entries, (entryParts e).isSome) :
    parseAndSaveResponse text base =
      .ok (entries.filterMap (fun e =>
        (entryParts e).bind (fun p =>
          if p.2 = "" then none else some (ensureMd p.1, p.2)))) ∧
    parseAndSaveBatchResponse text base idxs =
      entries.filterMap (fun e =>
        (entryParts e).bind (fun p =>
          if p.2 = "" then none else some (normBatch base p.1, p.2))) := by
  have hne : kvs ≠ [] := jlookupLast_ne_nil hfl
  have ht : jtruthy (.obj kvs) = true := by simp [jtruthy, hne]
  have hcas : cascadeData text = some (.obj kvs) := cascade_of_truthy text _ hp ht
  have hin : pyInFiles (.obj kvs) = .ok true := pyInFiles_of_lookup hfl
  have hidx : jIndexFiles (.obj kvs) = .ok (.arr entries) := by
    simp only [jIndexFiles]
    rw [hfl]
  constructor
  · unfold parseAndSaveResponse
    rw [hcas]
    simp only [ht, if_true, hin, hidx, Except.bind]
    show (iterEntries (.arr entries)).bind processEntriesSingle = _
    rw [show iterEntries (.arr entries) = .ok entries from rfl]
    simp only [Except.bind]
    exact processEntriesSingle_wf entries hwf
  · unfold parseAndSaveBatchResponse
    rw [hcas]
    simp only [ht, if_true, hin, hidx, Except.bind]
    show (match (iterEntries (.arr entries)).bind (processEntriesBatch base 0) with
          | .ok out => out
          | .error _ => saveSimpleMarkdown text (base ++ "_batch_" ++ toString (idxs.headD 0))) = _
    rw [show iterEntries (.arr entries) = .ok entries from rfl]
    simp only [Except.bind]
    rw [processEntriesBatch_wf base entries 0 hwf]

/-- C8, witness: the amended theorem at a concrete one-entry structured
response, on both parsing paths. -/
theorem c8_witness :
    parseAndSaveResponse "\x7b\"files\": [\x7b\"filename\": \"a\", \"content\": \"h\"\x7d]\x7d" "b"
      = .ok [("a.md", "h")] ∧
    parseAndSaveBatchResponse "\x7b\"files\": [\x7b\"filename\": \"a\", \"content\": \"h\"\x7d]\x7d" "b" [0]
      = [("b_a.md", "h")] := by
  have := c8_structured_files_roundtrip
    "\x7b\"files\": [\x7b\"filename\": \"a\", \"content\": \"h\"\x7d]\x7d" "b" [0]
    [("files", .arr [.obj [("filename", .str "a"), ("content", .str "h")]])]
    [.obj [("filename", .str "a"), ("content", .str "h")]]
    rfl rfl
    (by
      intro e he
      rw [List.mem_singleton] at he
      subst he
      rfl)
  exact ⟨this.1.trans (by decide), this.2.trans (by decide)⟩

/-- C5, counterexample: on the single-table parsing path, a structured
response whose model-supplied filename does not start with the run's
base name is saved unchanged — `x.md` is not prefixed with `report`,
contradicting the claim's base-name-prefix property for that path. -/
theorem c5_counterexample :
    parseAndSaveResponse
        "\x7b\"files\": [\x7b\"filename\": \"x.md\", \"content\": \"h\"\x7d]\x7d" "report"
      = .ok [("x.md", "h")] ∧
    pyStarts "x.md" "report" = false :=
  ⟨by decide, by decide⟩

/-- C5 (amended): every file saved by the batch parsing path — entries
and fallback alike — has a filename that ends in `.md` and starts with
the run's base name; on the single-table parsing path only the `.md`
suffix is enforced (that path never prepends the base name). -/
theorem c5_filename_normalization :
    (∀ (text base : String) (idxs : List Nat) (f : String × String),
        f ∈ parseAndSaveBatchResponse text base idxs →
        pyEnds f.1 ".md" = true ∧ pyStarts f.1 base = true) ∧
    (∀ (text base : String) (out : List (String × String)) (f : String × String),
        parseAndSaveResponse text base = .ok out → f ∈ out →
        pyEnds f.1 ".md" = true) := by
  constructor
  · intro text base idxs f hf
    have hfb : ∀ g : String × String,
        g ∈ saveSimpleMarkdown text (base ++ "_batch_" ++ toString (idxs.headD 0)) →
        pyEnds g.1 ".md" = true ∧ pyStarts g.1 base = true := by
      intro g hg
      rw [saveSimple_mem _ _ _ hg]
      constructor
      · exact pyEnds_append _ ".md"
      · exact pyStarts_of_append_right _ _ _
          (pyStarts_of_append_right _ _ _ (pyStarts_append base "_batch_"))
    unfold parseAndSaveBatchResponse at hf
    dsimp only at hf
    split at hf
    · exact hfb f hf
    · split at hf
      · split at hf
        · exact hfb f hf
        · exact hfb f hf
        · split at hf
          · rename_i hbind
            rcases hjv : jIndexFiles _ with m | fv
            · rw [hjv] at hbind
              simp [Except.bind] at hbind
            · rw [hjv] at hbind
              simp only [Except.bind] at hbind
              rcases hit : iterEntries fv with m2 | es
              · rw [hit] at hbind
                simp [Except.bind] at hbind
              · rw [hit] at hbind
                simp only [Except.bind] at hbind
                exact processEntriesBatch_names base es 0 _ hbind f hf
          · exact hfb f hf
      · exact hfb f hf
  · intro text base out f h hf
    unfold parseAndSaveResponse at h
    split at h
    · cases h
      rw [saveSimple_mem _ _ _ hf]
      exact pyEnds_append _ ".md"
    · split at h
      · split at h
        · exact Except.noConfusion h
        · cases h
          rw [saveSimple_mem _ _ _ hf]
          exact pyEnds_append _ ".md"
        · rcases hjv : jIndexFiles _ with m | fv
          · rw [hjv] at h
            simp [Except.bind] at h
          · rw [hjv] at h
            simp only [Except.bind] at h
            rcases hit : iterEntries fv with m2 | es
            · rw [hit] at h
              simp [Except.bind] at h
            · rw [hit] at h
              simp only [Except.bind] at h
              exact processEntriesSingle_names es out h f hf
      · cases h
        rw [saveSimple_mem _ _ _ hf]
        exact pyEnds_append _ ".md"

/-- C5, witness: the amended theorem applied to the batch fallback file
of a concrete unstructured response. -/
theorem c5_witness :
    pyEnds "b_batch_0.md" ".md" = true ∧ pyStarts "b_batch_0.md" "b" = true :=
  c5_filename_normalization.1 "hi" "b" [0] ("b_batch_0.md", "hi") (by decide)

/-- C2, counterexample: with the default configuration (`max_retries = 5`)
and a client that always raises the non-rate-limit error `"boom"`, the
retry loop propagates the error after exactly one call attempt, with no
backoff sleep — not after `max_retries = 5` attempts as the claim states. -/
theorem c2_counterexample :
    generateWithRetry {} alwaysBoomClient = ⟨.error "boom", [], 1⟩ ∧
    ({} : ConvCfg).maxRetries = 5 ∧ (1 : Nat) ≠ 5 :=
  ⟨by decide, rfl, by decide⟩

/-- C2 (amended): a non-rate-limit failure is not retried at all — on any
attempt before the last, the retry loop re-raises it immediately (lines
749-751), so a client whose first call raises a non-rate-limit error
makes the generation fail after exactly one call attempt, with no
backoff sleep; only rate-limit errors are retried with exponential
backoff. -/
theorem c2_nonRateLimit_fails_after_one_attempt (cfg : ConvCfg)
    (client : Nat → CallResult) (e : String)
    (h0 : client 0 = CallResult.err e) (hrl : isRateLimit e = false)
    (h2 : 2 ≤ cfg.maxRetries) :
    generateWithRetry cfg client = ⟨.error e, [], 1⟩ := by
  obtain ⟨k, hk⟩ : ∃ k, cfg.maxRetries = k + 2 := ⟨cfg.maxRetries - 2, by omega⟩
  unfold generateWithRetry
  rw [hk]
  simp only [retryAux, Nat.sub_self, lt_irrefl, if_false, h0, hrl, Bool.false_eq_true]
  have h1 : ¬(0 = k + 2 - 1) := by omega
  simp [h1]

/-- C2, witness: the amended theorem at the concrete always-failing
client and the default configuration. -/
theorem c2_witness :
    generateWithRetry {} alwaysBoomClient = ⟨.error "boom", [], 1⟩ :=
  c2_nonRateLimit_fails_after_one_attempt {} alwaysBoomClient "boom" rfl (by decide) (by decide)

/-- C3, counterexample: with the default configuration and a client that
first raises a rate-limit error carrying `retry in 2s` and then
succeeds, the loop sleeps `2 + 1.5 = 3.5` seconds and then additionally
sleeps the 10-second exponential-backoff delay at the top of the second
attempt — the sleep trace is `[3.5, 10]`, not a single `≈3.5s` sleep. -/
theorem c3_counterexample :
    generateWithRetry {} retryIn2sClient = ⟨.ok "success", [mkRat 7 2, 10], 2⟩ ∧
    ([mkRat 7 2, 10] : List ℚ) ≠ [mkRat 7 2] ∧ (mkRat 7 2 : ℚ) = 2 + 3 / 2 :=
  ⟨by decide, by decide, by rw [Rat.mkRat_eq_div]; norm_num⟩

/-- C3 (amended): for a client whose first call raises a rate-limit error
with an extractable wait `w` and whose second call succeeds, the loop
sleeps `w + 1.5` seconds, and then also the exponential-backoff sleep
`initial_retry_delay * 2^0` at the top of the second attempt (the code
comments at lines 734-737 accept this double sleep), then returns the
success text after exactly two calls. -/
theorem c3_rateLimit_sleeps_wait_then_backoff (cfg : ConvCfg)
    (client : Nat → CallResult) (e t : String) (w : ℚ)
    (h0 : client 0 = CallResult.err e) (h1 : client 1 = CallResult.ok t)
    (hrl : isRateLimit e = true) (hw : extractRetryWait e = some w)
    (h2 : 2 ≤ cfg.maxRetries) :
    generateWithRetry cfg client =
      ⟨.ok t, [w + mkRat 3 2, cfg.initialRetryDelay], 2⟩ := by
  obtain ⟨k, hk⟩ : ∃ k, cfg.maxRetries = k + 2 := ⟨cfg.maxRetries - 2, by omega⟩
  unfold generateWithRetry
  rw [hk]
  simp only [retryAux, Nat.sub_self, lt_irrefl, if_false, h0, hrl, hw]
  have ha : k + 2 - (k + 1 + 1) = 0 := by omega
  have hb : k + 2 - (k + 1) = 1 := by omega
  simp only [ha, hb, lt_irrefl]
  simp [h1, qadd_eq, expBackoff]

/-- C3, witness: the amended theorem at the concrete
fail-once-then-succeed client and the default configuration. -/
theorem c3_witness :
    generateWithRetry {} retryIn2sClient =
      ⟨.ok "success", [(2 : ℚ) + mkRat 3 2, ({} : ConvCfg).initialRetryDelay], 2⟩ :=
  c3_rateLimit_sleeps_wait_then_backoff {} retryIn2sClient
    "429 RESOURCE_EXHAUSTED: Please retry in 2s." "success" 2 rfl rfl
    (by decide) (by decide) (by decide)

/-- `outAppend` with the empty observation on the left. -/
theorem outAppend_empty_left (a : FileOutcome) : outAppend outEmpty a = a := by
  simp [outAppend, outEmpty]

/-- The per-sheet fallback loop is the concatenation of the per-sheet
contributions appended to the accumulator. -/
theorem fallbackLoop_eq (env : Env) (cfg : ConvCfg) (fileName base : String)
    (sheets : List (String × String)) (first : Nat) :
    ∀ (l : List Nat) (acc : FileOutcome),
      fallbackLoop env cfg fileName base sheets first l acc =
        outAppend acc (outConcat (l.map (sheetFallbackOut env cfg fileName base sheets first))) := by
  intro l
  induction l with
  | nil => intro acc; rw [fallbackLoop]; simp [outConcat, outAppend, outEmpty]
  | cons i rest ih =>
    intro acc
    rw [fallbackLoop]
    dsimp only
    rcases hg : env.genSingle (base ++ "_" ++ (sheets.getD i ("", "")).1) true with m | fs
    · dsimp only
      rw [ih]
      simp only [List.map_cons, outConcat, List.foldr, sheetFallbackOut]
      rw [hg]
      by_cases hfirst : i ≠ first <;>
        simp [outAppend, hfirst, List.append_assoc]
    · dsimp only
      rw [ih]
      simp only [List.map_cons, outConcat, List.foldr, sheetFallbackOut]
      rw [hg]
      by_cases hfirst : i ≠ first <;>
        simp [outAppend, hfirst, List.append_assoc]

/-- The batch loop is the concatenation of the per-batch contributions
appended to the accumulator. -/
theorem batchLoop_eq (env : Env) (cfg : ConvCfg) (fileName base : String)
    (sheets : List (String × String)) :
    ∀ (l : List (Nat × List Nat)) (acc : FileOutcome),
      batchLoop env cfg fileName base sheets l acc =
        outAppend acc (outConcat (l.map (batchOut env cfg fileName base sheets))) := by
  intro l
  induction l with
  | nil => intro acc; rw [batchLoop]; simp [outConcat, outAppend, outEmpty]
  | cons p rest ih =>
    intro acc
    obtain ⟨bidx, indices⟩ := p
    rw [batchLoop]
    dsimp only
    rcases hg : env.genBatch indices with m | fs
    · dsimp only
      rw [fallbackLoop_eq, ih]
      simp only [List.map_cons, outConcat, List.foldr, batchOut]
      rw [hg]
      by_cases hb : 0 < bidx <;>
        simp [outAppend, hb, List.append_assoc]
    · dsimp only
      rw [ih]
      simp only [List.map_cons, outConcat, List.foldr, batchOut]
      rw [hg]
      by_cases hb : 0 < bidx <;>
        simp [outAppend, hb, List.append_assoc]

/-- `convert_file` on a readable workbook is exactly the concatenation of
the per-batch contributions, batches in planner order. -/
theorem convertFile_excel (env : Env) (cfg : ConvCfg) (path : String)
    (sheets : List (String × String))
    (hx : pyLower (pathSuffix (pathName path)) = ".xlsx" ∨
          pyLower (pathSuffix (pathName path)) = ".xls")
    (hr : env.readExcel = .ok sheets) :
    convertFile env cfg path =
      outConcat ((calculateBatchSize cfg sheets).enum.map
        (batchOut env cfg (pathName path) (pathStem (pathName path)) sheets)) := by
  unfold convertFile
  rw [if_pos hx, hr]
  dsimp only
  rw [batchLoop_eq, outAppend_empty_left]

/-- Created files of a concatenation of observations. -/
theorem outConcat_created :
    ∀ l : List FileOutcome, (outConcat l).created = (l.map (·.created)).flatten := by
  intro l
  induction l with
  | nil => simp [outConcat, outEmpty]
  | cons a l ih => simp [outConcat, outAppend, List.foldr] at ih ⊢; rw [ih]

/-- Error entries of a concatenation of observations. -/
theorem outConcat_errors :
    ∀ l : List FileOutcome, (outConcat l).errors = (l.map (·.errors)).flatten := by
  intro l
  induction l with
  | nil => simp [outConcat, outEmpty]
  | cons a l ih => simp [outConcat, outAppend, List.foldr] at ih ⊢; rw [ih]

/-- Field-by-field description of a per-sheet fallback segment: created
files from the succeeding sheets, one friendly error entry per failing
sheet, a 5-second delay before every sheet except the batch's first, and
one single-table (`is_single_sheet=True`) call per sheet. -/
theorem fallbackSegment_fields (env : Env) (cfg : ConvCfg) (fileName base : String)
    (sheets : List (String × String)) (first : Nat) :
    ∀ l : List Nat,
      (outConcat (l.map (sheetFallbackOut env cfg fileName base sheets first))).created =
        (l.map (fun i =>
          match env.genSingle (base ++ "_" ++ (sheets.getD i ("", "")).1) true with
          | .ok fs => fs
          | .error _ => [])).flatten ∧
      (outConcat (l.map (sheetFallbackOut env cfg fileName base sheets first))).errors =
        l.filterMap (fun i =>
          match env.genSingle (base ++ "_" ++ (sheets.getD i ("", "")).1) true with
          | .ok _ => none
          | .error m => some ⟨fileName ++ " - " ++ (sheets.getD i ("", "")).1,
              friendlyErrorMessage cfg.modelName m⟩) ∧
      (outConcat (l.map (sheetFallbackOut env cfg fileName base sheets first))).sleeps =
        (l.map (fun i => if i ≠ first then [(5 : ℚ)] else [])).flatten ∧
      (outConcat (l.map (sheetFallbackOut env cfg fileName base sheets first))).callLog =
        l.map (fun i =>
          CallRec.singleCall (base ++ "_" ++ (sheets.getD i ("", "")).1) true) := by
  intro l
  induction l with
  | nil => simp [outConcat, outEmpty]
  | cons i rest ih =>
    obtain ⟨ih1, ih2, ih3, ih4⟩ := ih
    simp only [List.map_cons, outConcat, List.foldr, sheetFallbackOut] at ih1 ih2 ih3 ih4 ⊢
    rcases hg : env.genSingle (base ++ "_" ++ (sheets.getD i ("", "")).1) true with m | fs <;>
      refine ⟨?_, ?_, ?_, ?_⟩ <;>
        simp only [outAppend, hg, List.map_cons, List.flatten_cons, List.filterMap_cons,
          ih1, ih2, ih3, ih4, List.nil_append, List.append_nil, List.singleton_append]

/-- A failing batch contributes its batch-call record, the inter-batch
delay when due, and the whole per-sheet fallback segment. -/
theorem batchOut_fail (env : Env) (cfg : ConvCfg) (fileName base : String)
    (sheets : List (String × String)) (b : Nat) (indices : List Nat) (msg : String)
    (hf : env.genBatch indices = .error msg) :
    batchOut env cfg fileName base sheets (b, indices) =
      outAppend ⟨[], [], if 0 < b then [cfg.batchDelay] else [], [CallRec.batchCall indices]⟩
        (outConcat (indices.map
          (sheetFallbackOut env cfg fileName base sheets (indices.headD 0)))) := by
  simp only [batchOut]
  rw [hf]

/-- C6: when a batch's generate-and-save step raises, `convert_file` does
not fail the whole file: the file's outcome is still the concatenation of
all batches' contributions in order (so the remaining batches are
processed), and the failing batch's contribution is its batch call
followed by a per-sheet pass over exactly that batch's sheets with the
single-table template — a 5-second sleep before every sheet after the
batch's first, the created files of the sheets that succeed, and one
friendly error entry `⟨file - sheet, message⟩` per sheet that fails. -/
theorem c6_batch_failure_per_sheet_fallback (env : Env) (cfg : ConvCfg) (path : String)
    (sheets : List (String × String)) (b : Nat) (indices : List Nat) (msg : String)
    (hx : pyLower (pathSuffix (pathName path)) = ".xlsx" ∨
          pyLower (pathSuffix (pathName path)) = ".xls")
    (hr : env.readExcel = .ok sheets)
    (_hb : (calculateBatchSize cfg sheets).get? b = some indices)
    (hf : env.genBatch indices = .error msg) :
    convertFile env cfg path =
      outConcat ((calculateBatchSize cfg sheets).enum.map
        (batchOut env cfg (pathName path) (pathStem (pathName path)) sheets)) ∧
    batchOut env cfg (pathName path) (pathStem (pathName path)) sheets (b, indices) =
      outAppend ⟨[], [], if 0 < b then [cfg.batchDelay] else [], [CallRec.batchCall indices]⟩
        (outConcat (indices.map (sheetFallbackOut env cfg (pathName path)
          (pathStem (pathName path)) sheets (indices.headD 0)))) ∧
    (outConcat (indices.map (sheetFallbackOut env cfg (pathName path)
        (pathStem (pathName path)) sheets (indices.headD 0)))).created =
      (indices.map (fun i =>
        match env.genSingle (pathStem (pathName path) ++ "_" ++ (sheets.getD i ("", "")).1) true with
        | .ok fs => fs
        | .error _ => [])).flatten ∧
    (outConcat (indices.map (sheetFallbackOut env cfg (pathName path)
        (pathStem (pathName path)) sheets (indices.headD 0)))).errors =
      indices.filterMap (fun i =>
        match env.genSingle (pathStem (pathName path) ++ "_" ++ (sheets.getD i ("", "")).1) true with
        | .ok _ => none
        | .error m => some ⟨pathName path ++ " - " ++ (sheets.getD i ("", "")).1,
            friendlyErrorMessage cfg.modelName m⟩) ∧
    (outConcat (indices.map (sheetFallbackOut env cfg (pathName path)
        (pathStem (pathName path)) sheets (indices.headD 0)))).sleeps =
      (indices.map (fun i => if i ≠ indices.headD 0 then [(5 : ℚ)] else [])).flatten ∧
    (outConcat (indices.map (sheetFallbackOut env cfg (pathName path)
        (pathStem (pathName path)) sheets (indices.headD 0)))).callLog =
      indices.map (fun i =>
        CallRec.singleCall (pathStem (pathName path) ++ "_" ++ (sheets.getD i ("", "")).1) true) := by
  obtain ⟨h1, h2, h3, h4⟩ :=
    fallbackSegment_fields env cfg (pathName path) (pathStem (pathName path)) sheets
      (indices.headD 0) indices
  exact ⟨convertFile_excel env cfg path sheets hx hr,
    batchOut_fail env cfg _ _ sheets b indices msg hf, h1, h2, h3, h4⟩

/-- C6, witness: the theorem at the concrete always-failing batch
environment, projected to the whole-file decomposition. -/
theorem c6_witness :
    convertFile fallbackEnv {} "wb.xlsx" =
      outConcat ((calculateBatchSize {} [("S1", "d1"), ("S2", "d2")]).enum.map
        (batchOut fallbackEnv {} "wb.xlsx" "wb" [("S1", "d1"), ("S2", "d2")])) :=
  (c6_batch_failure_per_sheet_fallback fallbackEnv {} "wb.xlsx"
    [("S1", "d1"), ("S2", "d2")] 0 [0, 1] "bfail"
    (Or.inl (by decide)) rfl (by decide) rfl).1

/-- `convert_file` when the workbook cannot be read. -/
theorem convertFile_excel_readErr (env : Env) (cfg : ConvCfg) (path : String) (m : String)
    (hx : pyLower (pathSuffix (pathName path)) = ".xlsx" ∨
          pyLower (pathSuffix (pathName path)) = ".xls")
    (hr : env.readExcel = .error m) :
    convertFile env cfg path =
      ⟨[], [⟨pathName path,
        friendlyErrorMessage cfg.modelName ("Lỗi khi đọc file Excel: " ++ m)⟩], [], []⟩ := by
  unfold convertFile
  rw [if_pos hx, hr]

/-- `convert_file` on an unsupported extension. -/
theorem convertFile_unsupported (env : Env) (cfg : ConvCfg) (path : String)
    (hx : ¬(pyLower (pathSuffix (pathName path)) = ".xlsx" ∨
            pyLower (pathSuffix (pathName path)) = ".xls"))
    (hc : pyLower (pathSuffix (pathName path)) ≠ ".csv") :
    convertFile env cfg path =
      ⟨[], [⟨pathName path, friendlyErrorMessage cfg.modelName
        ("Unsupported file type: " ++ pyLower (pathSuffix (pathName path)))⟩], [], []⟩ := by
  unfold convertFile
  rw [if_neg hx, if_neg hc]

/-- `convert_file` on a readable CSV whose generation pipeline raises. -/
theorem convertFile_csv_genErr (env : Env) (cfg : ConvCfg) (path : String) (s m : String)
    (hc : pyLower (pathSuffix (pathName path)) = ".csv")
    (hr : env.readCSV = .ok s)
    (hg : env.genSingle (pathStem (pathName path)) false = .error m) :
    convertFile env cfg path =
      ⟨[], [⟨pathName path,
        friendlyErrorMessage cfg.modelName ("Lỗi khi đọc file CSV: " ++ m)⟩], [],
        [CallRec.singleCall (pathStem (pathName path)) false]⟩ := by
  have hx : ¬(pyLower (pathSuffix (pathName path)) = ".xlsx" ∨
              pyLower (pathSuffix (pathName path)) = ".xls") := by
    rw [hc]
    decide
  unfold convertFile
  rw [if_neg hx, if_pos hc, hr]
  dsimp only
  rw [hg]

/-- Every error entry of a batch contribution is a friendly message. -/
theorem batchOut_errors_friendly (env : Env) (cfg : ConvCfg) (fileName base : String)
    (sheets : List (String × String)) (p : Nat × List Nat) :
    ∀ e ∈ (batchOut env cfg fileName base sheets p).errors,
      ∃ raw, e.error = friendlyErrorMessage cfg.modelName raw := by
  obtain ⟨bidx, indices⟩ := p
  intro e he
  rcases hg : env.genBatch indices with m | fs
  · simp only [batchOut] at he
    rw [hg] at he
    simp only [outAppend, List.nil_append] at he
    rw [(fallbackSegment_fields env cfg fileName base sheets (indices.headD 0) indices).2.1] at he
    obtain ⟨i, _, hi⟩ := List.mem_filterMap.mp he
    rcases hgs : env.genSingle (base ++ "_" ++ (sheets.getD i ("", "")).1) true with m2 | fs2
    · rw [hgs] at hi
      simp at hi
      exact ⟨m2, by rw [← hi]⟩
    · rw [hgs] at hi
      simp at hi
  · simp only [batchOut] at he
    rw [hg] at he
    simp at he

/-- C7: `convert_file` never raises — it always returns its file list and
error list — and every error entry's message is `_friendly_error_message`
of some raw message; in particular an unsupported extension, an unreadable
workbook, and a CSV whose generation pipeline raises (e.g. exhausted
retries) each produce exactly one structured `{file, error}` entry — the
CSV generation failure reaching the outer handler wrapped as
`Lỗi khi đọc file CSV: ...`, since the CSV `try` encloses
`_generate_and_save` too. -/
theorem c7_convertFile_error_discipline (env : Env) (cfg : ConvCfg) (path : String) :
    (∀ e ∈ (convertFile env cfg path).errors,
      ∃ raw, e.error = friendlyErrorMessage cfg.modelName raw) ∧
    (¬(pyLower (pathSuffix (pathName path)) = ".xlsx" ∨
       pyLower (pathSuffix (pathName path)) = ".xls") →
     pyLower (pathSuffix (pathName path)) ≠ ".csv" →
     convertFile env cfg path =
       ⟨[], [⟨pathName path, friendlyErrorMessage cfg.modelName
         ("Unsupported file type: " ++ pyLower (pathSuffix (pathName path)))⟩], [], []⟩) ∧
    (∀ m, (pyLower (pathSuffix (pathName path)) = ".xlsx" ∨
           pyLower (pathSuffix (pathName path)) = ".xls") →
      env.readExcel = .error m →
      convertFile env cfg path =
        ⟨[], [⟨pathName path,
          friendlyErrorMessage cfg.modelName ("Lỗi khi đọc file Excel: " ++ m)⟩], [], []⟩) ∧
    (∀ s m, pyLower (pathSuffix (pathName path)) = ".csv" →
      env.readCSV = .ok s → env.genSingle (pathStem (pathName path)) false = .error m →
      convertFile env cfg path =
        ⟨[], [⟨pathName path,
          friendlyErrorMessage cfg.modelName ("Lỗi khi đọc file CSV: " ++ m)⟩], [],
          [CallRec.singleCall (pathStem (pathName path)) false]⟩) := by
  refine ⟨?_, ?_, ?_, ?_⟩
  · intro e he
    by_cases hx : pyLower (pathSuffix (pathName path)) = ".xlsx" ∨
        pyLower (pathSuffix (pathName path)) = ".xls"
    · rcases hr : env.readExcel with m | sheets
      · rw [convertFile_excel_readErr env cfg path m hx hr] at he
        simp at he
        exact ⟨_, by rw [he]⟩
      · rw [convertFile_excel env cfg path sheets hx hr] at he
        rw [outConcat_errors] at he
        obtain ⟨l, hl, hel⟩ := List.mem_flatten.mp he
        obtain ⟨o, ho, rfl⟩ := List.mem_map.mp hl
        obtain ⟨p, hp, rfl⟩ := List.mem_map.mp ho
        exact batchOut_errors_friendly env cfg _ _ sheets p e hel
    · by_cases hc : pyLower (pathSuffix (pathName path)) = ".csv"
      · rcases hr : env.readCSV with m | s
        · unfold convertFile at he
          rw [if_neg hx, if_pos hc, hr] at he
          simp at he
          exact ⟨_, by rw [he]⟩
        · rcases hg : env.genSingle (pathStem (pathName path)) false with m | fs
          · rw [convertFile_csv_genErr env cfg path s m hc hr hg] at he
            simp at he
            exact ⟨_, by rw [he]⟩
          · unfold convertFile at he
            rw [if_neg hx, if_pos hc, hr] at he
            dsimp only at he
            rw [hg] at he
            simp at he
      · rw [convertFile_unsupported env cfg path hx hc] at he
        simp at he
        exact ⟨_, by rw [he]⟩
  · intro hx hc
    exact convertFile_unsupported env cfg path hx hc
  · intro m hx hr
    exact convertFile_excel_readErr env cfg path m hx hr
  · intro s m hc hr hg
    exact convertFile_csv_genErr env cfg path s m hc hr hg

/-- C7, witness: the theorem's unsupported-extension clause at a concrete
text file. -/
theorem c7_witness :
    convertFile fallbackEnv {} "x.txt" =
      ⟨[], [⟨"x.txt", friendlyErrorMessage "gemini-2.5-flash" "Unsupported file type: .txt"⟩],
        [], []⟩ :=
  (c7_convertFile_error_discipline fallbackEnv {} "x.txt").2.1 (by decide) (by decide)

/-- C10: in directory mode, only names matching the literal lowercase
glob patterns `*.xlsx`, `*.xls`, `*.csv` are processed — a directory
whose files match none of them (e.g. the upper-case `DATA.XLSX`)
produces no output file and no error entry, for every environment;
whereas the same name passed directly as a single file is dispatched on
its lower-cased suffix and processed as Excel (an unreadable workbook
then surfaces as one error entry), and a genuinely unsupported
extension passed directly yields exactly one error entry. -/
theorem c10_glob_case_sensitivity (envOf : String → Env) (cfg : ConvCfg) :
    (∀ listing : List String,
       (∀ nm ∈ listing, pyEnds nm ".xlsx" = false ∧ pyEnds nm ".xls" = false ∧
          pyEnds nm ".csv" = false) →
       convert envOf cfg (.dir listing) = ([], [])) ∧
    convert envOf cfg (.dir ["DATA.XLSX"]) = ([], []) ∧
    (∀ m, (envOf "DATA.XLSX").readExcel = .error m →
       convert envOf cfg (.file "DATA.XLSX") =
         ([], [⟨"DATA.XLSX",
           friendlyErrorMessage cfg.modelName ("Lỗi khi đọc file Excel: " ++ m)⟩])) ∧
    convert envOf cfg (.file "DATA.TXT") =
      ([], [⟨"DATA.TXT", friendlyErrorMessage cfg.modelName "Unsupported file type: .txt"⟩]) := by
  have hdir : ∀ listing : List String,
      (∀ nm ∈ listing, pyEnds nm ".xlsx" = false ∧ pyEnds nm ".xls" = false ∧
         pyEnds nm ".csv" = false) →
      convert envOf cfg (.dir listing) = ([], []) := by
    intro listing hnone
    unfold convert
    dsimp only
    rw [List.filter_eq_nil_iff.mpr (fun nm hnm => by simp [(hnone nm hnm).1]),
        List.filter_eq_nil_iff.mpr (fun nm hnm => by simp [(hnone nm hnm).2.1]),
        List.filter_eq_nil_iff.mpr (fun nm hnm => by simp [(hnone nm hnm).2.2])]
    rfl
  refine ⟨hdir, hdir _ (by decide), ?_, ?_⟩
  · intro m hr
    unfold convert
    simp only [List.foldr]
    rw [convertFile_excel_readErr (envOf "DATA.XLSX") cfg "DATA.XLSX" m (Or.inl (by decide)) hr]
    simp
    decide
  · unfold convert
    simp only [List.foldr]
    rw [convertFile_unsupported (envOf "DATA.TXT") cfg "DATA.TXT" (by decide) (by decide)]
    simp
    constructor
    · decide
    · rw [show pyLower (pathSuffix (pathName "DATA.TXT")) = ".txt" from by decide]
      congr 1

/-- C10, witness: the single-file clause at a concrete environment whose
workbook read fails. -/
theorem c10_witness :
    convert (fun _ => readErrEnv) {} (.file "DATA.XLSX") =
      ([], [⟨"DATA.XLSX", friendlyErrorMessage "gemini-2.5-flash"
        ("Lỗi khi đọc file Excel: " ++ "corrupt")⟩]) :=
  (c10_glob_case_sensitivity (fun _ => readErrEnv) {}).2.2.1 "corrupt" rfl


/-! ### Falsy decoded values and the strategy cascade

Characterisation of the inputs on which `json.loads` succeeds with a
falsy value: such a text contains no backtick and — apart from the
empty-object case, whose brace span re-parses to the same empty object —
no opening brace, so the fenced-block and balanced-brace strategies
cannot produce a truthy value either, and both parsing paths fall
through to `_save_simple_markdown`. -/

theorem drop_len_takeWhile (p : Char → Bool) :
    ∀ l : List Char, l.drop (l.takeWhile p).length = l.dropWhile p := by
  intro l
  induction l with
  | nil => rfl
  | cons a t ih =>
    by_cases h : p a
    · simp [List.takeWhile_cons, List.dropWhile_cons, h, ih]
    · simp [List.takeWhile_cons, List.dropWhile_cons, h]

theorem isPrefixOf_decomp : ∀ {lit rest : List Char}, lit.isPrefixOf rest = true →
    rest = lit ++ rest.drop lit.length := by
  intro lit
  induction lit with
  | nil => intro rest _; simp
  | cons a t ih =>
    intro rest hp
    cases rest with
    | nil => simp [List.isPrefixOf] at hp
    | cons b u =>
      simp only [List.isPrefixOf, Bool.and_eq_true, beq_iff_eq] at hp
      obtain ⟨rfl, h2⟩ := hp
      simp only [List.cons_append, List.length_cons, List.drop_succ_cons]
      exact congrArg _ (ih h2)

theorem ws_safe {c : Char} (h : isJsonWs c = true) : c ≠ lbrace ∧ c ≠ btick := by
  simp only [isJsonWs, Bool.or_eq_true, decide_eq_true_eq] at h
  rcases h with ((rfl | rfl) | rfl) | rfl <;> exact ⟨by decide, by decide⟩

theorem numChar_safe {c : Char}
    (h : c.isDigit = true ∨ c = '-' ∨ c = '+' ∨ c = '.' ∨ c = 'e' ∨ c = 'E') :
    c ≠ lbrace ∧ c ≠ btick := by
  constructor <;> rintro rfl <;> revert h <;> decide

theorem numSign_shape (cs : List Char) :
    ∃ pre, cs = pre ++ (numSign cs).2 ∧ ∀ c ∈ pre, c = '-' := by
  unfold numSign
  split
  · exact ⟨['-'], rfl, by simp⟩
  · exact ⟨[], rfl, by simp⟩

theorem numFrac_shape (cs2 : List Char) :
    ∃ pre, cs2 = pre ++ (numFrac cs2).2 ∧ ∀ c ∈ pre, c = '.' ∨ c.isDigit = true := by
  unfold numFrac
  split
  · rename_i t
    dsimp only
    split
    · exact ⟨[], rfl, by simp⟩
    · refine ⟨'.' :: t.takeWhile Char.isDigit, ?_, ?_⟩
      · simp only [drop_len_takeWhile, List.cons_append, List.takeWhile_append_dropWhile]
      · intro c hc
        rcases List.mem_cons.mp hc with rfl | hc
        · exact Or.inl rfl
        · exact Or.inr (List.mem_takeWhile_imp hc)
  · exact ⟨[], rfl, by simp⟩

theorem expSign_shape (t : List Char) :
    ∃ pre, t = pre ++ (expSign t).2 ∧ ∀ c ∈ pre, c = '+' ∨ c = '-' := by
  unfold expSign
  split
  · exact ⟨['+'], rfl, by simp⟩
  · exact ⟨['-'], rfl, by simp⟩
  · exact ⟨[], rfl, by simp⟩

theorem numExp_shape (cs3 : List Char) :
    ∃ pre, cs3 = pre ++ (numExp cs3).2 ∧
      ∀ c ∈ pre, c.isDigit = true ∨ c = '-' ∨ c = '+' ∨ c = '.' ∨ c = 'e' ∨ c = 'E' := by
  unfold numExp
  split
  · rename_i e t
    dsimp only
    split
    · rename_i he
      have heOr : e.isDigit = true ∨ e = '-' ∨ e = '+' ∨ e = '.' ∨ e = 'e' ∨ e = 'E' := by
        rcases he with rfl | rfl
        · exact Or.inr (Or.inr (Or.inr (Or.inr (Or.inl rfl))))
        · exact Or.inr (Or.inr (Or.inr (Or.inr (Or.inr rfl))))
      split
      · exact ⟨[], rfl, by simp⟩
      · obtain ⟨p0, hp0, hp0c⟩ := expSign_shape t
        refine ⟨e :: (p0 ++ (expSign t).2.takeWhile Char.isDigit), ?_, ?_⟩
        · dsimp only
          rw [drop_len_takeWhile]
          simp only [List.cons_append, List.append_assoc, List.takeWhile_append_dropWhile]
          rw [← hp0]
        · intro c hc
          rcases List.mem_cons.mp hc with rfl | hc
          · exact heOr
          rcases List.mem_append.mp hc with hc | hc
          · rcases hp0c c hc with rfl | rfl
            · exact Or.inr (Or.inr (Or.inl rfl))
            · exact Or.inr (Or.inl rfl)
          · exact Or.inl (List.mem_takeWhile_imp hc)
    · exact ⟨[], rfl, by simp⟩
  · exact ⟨[], rfl, by simp⟩

theorem parseNumberCore_shape {cs : List Char} {m e : Int} {r : List Char}
    (h : parseNumberCore cs = some (m, e, r)) :
    ∃ pre, cs = pre ++ r ∧
      ∀ c ∈ pre, c.isDigit = true ∨ c = '-' ∨ c = '+' ∨ c = '.' ∨ c = 'e' ∨ c = 'E' := by
  obtain ⟨ps, hps, hpsc⟩ := numSign_shape cs
  have hsafe : ∀ c ∈ ps, c.isDigit = true ∨ c = '-' ∨ c = '+' ∨ c = '.' ∨ c = 'e' ∨ c = 'E' :=
    fun c hc => Or.inr (Or.inl (hpsc c hc))
  unfold parseNumberCore at h
  dsimp only at h
  rcases hcs1 : (numSign cs).2 with _ | ⟨d, t⟩
  · rw [hcs1] at h; exact Option.noConfusion h
  · rw [hcs1] at h hps
    dsimp only at h
    split at h
    · exact Option.noConfusion h
    · rename_i hdig
      have hd : d.isDigit = true := not_not.mp hdig
      simp only [Option.some.injEq, Prod.mk.injEq] at h
      obtain ⟨-, -, hr⟩ := h
      set I := (if d = '0' then ['0'] else (d :: t).takeWhile Char.isDigit) with hI
      have hIchars : ∀ c ∈ I, c.isDigit = true := by
        intro c hc
        rw [hI] at hc
        revert hc
        split
        · intro hc; rcases List.mem_singleton.mp hc with rfl; decide
        · intro hc; exact List.mem_takeWhile_imp hc
      have hint : d :: t = I ++ (d :: t).drop I.length := by
        rw [hI]
        split
        · rename_i h0; subst h0; simp
        · rw [drop_len_takeWhile]; simp
      obtain ⟨pf, hpf, hpfc⟩ := numFrac_shape ((d :: t).drop I.length)
      obtain ⟨pe, hpe, hpec⟩ := numExp_shape (numFrac ((d :: t).drop I.length)).2
      refine ⟨ps ++ I ++ pf ++ pe, ?_, ?_⟩
      · have hD : (d :: t).drop I.length = pf ++ (pe ++ r) := by
          rw [hpf, hpe, hr]
        rw [hps, hint, hD]
        simp [List.append_assoc]
      · intro c hc
        rcases List.mem_append.mp hc with hc | hc
        · rcases List.mem_append.mp hc with hc | hc
          · rcases List.mem_append.mp hc with hc | hc
            · exact hsafe c hc
            · exact Or.inl (hIchars c hc)
          · rcases hpfc c hc with rfl | hdg
            · exact Or.inr (Or.inr (Or.inr (Or.inl rfl)))
            · exact Or.inl hdg
        · exact hpec c hc

theorem parseStringBody_nil_shape :
    ∀ {fuel : Nat} {cs r : List Char},
      parseStringBody fuel cs = some ([], r) → cs = '"' :: r := by
  intro fuel cs r h
  match fuel, cs with
  | 0, _ => exact Option.noConfusion h
  | f + 1, [] => exact Option.noConfusion h
  | f + 1, c :: rest =>
    rw [parseStringBody] at h
    split at h
    · rename_i hc
      subst hc
      simp only [Option.some.injEq, Prod.mk.injEq] at h
      rw [h.2]
    · split at h
      · split at h
        · simp only [Option.some.injEq, Prod.mk.injEq] at h
          exact absurd h.1 (by simp)
        · exact Option.noConfusion h
      · exact Option.noConfusion h

theorem parseExact_shape {lit : List Char} {v w : Json} {rest r : List Char}
    (h : parseExact lit v rest = some (w, r)) : w = v ∧ rest = lit ++ r := by
  unfold parseExact at h
  split at h
  · rename_i hp
    simp only [Option.some.injEq, Prod.mk.injEq] at h
    obtain ⟨hv, hr⟩ := h
    refine ⟨hv.symm, ?_⟩
    rw [← hr]
    exact isPrefixOf_decomp hp
  · exact Option.noConfusion h

theorem parseMembers_ne_nil {fuel : Nat} {cs : List Char}
    {ms : List (String × Json)} {r : List Char}
    (h : parseMembers fuel cs = some (ms, r)) : ms ≠ [] := by
  cases fuel with
  | zero => exact Option.noConfusion h
  | succ f =>
    rw [parseMembers.eq_def] at h
    dsimp only at h
    repeat' split at h
    all_goals first
      | exact Option.noConfusion h
      | (simp only [Option.some.injEq, Prod.mk.injEq] at h
         obtain ⟨h1, -⟩ := h
         rw [← h1]
         simp)

theorem parseElems_ne_nil {fuel : Nat} {cs : List Char}
    {es : List Json} {r : List Char}
    (h : parseElems fuel cs = some (es, r)) : es ≠ [] := by
  cases fuel with
  | zero => exact Option.noConfusion h
  | succ f =>
    rw [parseElems.eq_def] at h
    dsimp only at h
    repeat' split at h
    all_goals first
      | exact Option.noConfusion h
      | (simp only [Option.some.injEq, Prod.mk.injEq] at h
         obtain ⟨h1, -⟩ := h
         rw [← h1]
         simp)

theorem parseObjTail_falsy {fuel : Nat} {cs2 : List Char} {v : Json} {r : List Char}
    (h : parseObjTail fuel cs2 = some (v, r)) (hf : jtruthy v = false) :
    v = .obj [] ∧ cs2 = rbrace :: r := by
  cases fuel with
  | zero => exact Option.noConfusion h
  | succ f =>
    rw [parseObjTail] at h
    split at h
    · rename_i hh
      simp only [Option.some.injEq, Prod.mk.injEq] at h
      obtain ⟨hv, hr⟩ := h
      refine ⟨hv.symm, ?_⟩
      cases cs2 with
      | nil => exact absurd hh (by decide)
      | cons a t =>
        simp only [List.headD] at hh
        subst hh
        simp only [List.tail_cons] at hr
        rw [hr]
    · split at h
      · rename_i ms r2 hm
        simp only [Option.some.injEq, Prod.mk.injEq] at h
        obtain ⟨hv, -⟩ := h
        exfalso
        rw [← hv] at hf
        exact parseMembers_ne_nil hm (by simpa [jtruthy] using hf)
      · exact Option.noConfusion h

theorem parseArrTail_falsy {fuel : Nat} {cs2 : List Char} {v : Json} {r : List Char}
    (h : parseArrTail fuel cs2 = some (v, r)) (hf : jtruthy v = false) :
    v = .arr [] ∧ cs2 = ']' :: r := by
  cases fuel with
  | zero => exact Option.noConfusion h
  | succ f =>
    rw [parseArrTail] at h
    split at h
    · rename_i hh
      simp only [Option.some.injEq, Prod.mk.injEq] at h
      obtain ⟨hv, hr⟩ := h
      refine ⟨hv.symm, ?_⟩
      cases cs2 with
      | nil => exact absurd hh (by decide)
      | cons a t =>
        simp only [List.headD] at hh
        subst hh
        simp only [List.tail_cons] at hr
        rw [hr]
    · split at h
      · rename_i es r2 hm
        simp only [Option.some.injEq, Prod.mk.injEq] at h
        obtain ⟨hv, -⟩ := h
        exfalso
        rw [← hv] at hf
        exact parseElems_ne_nil hm (by simpa [jtruthy] using hf)
      · exact Option.noConfusion h

theorem parseValue_falsy_shape :
    ∀ {fuel : Nat} {cs : List Char} {v : Json} {r : List Char},
      parseValue fuel cs = some (v, r) → jtruthy v = false →
      (v = .obj [] ∧ ∃ ws1, cs = lbrace :: ws1 ++ rbrace :: r ∧
        ∀ c ∈ ws1, isJsonWs c = true) ∨
      (∃ pre, cs = pre ++ r ∧ ∀ c ∈ pre, c ≠ lbrace ∧ c ≠ btick) := by
  intro fuel cs v r h hf
  match fuel, cs with
  | 0, _ => exact Option.noConfusion h
  | f + 1, [] => exact Option.noConfusion h
  | f + 1, c :: rest =>
    rw [parseValue] at h
    split at h
    · rename_i hc
      subst hc
      obtain ⟨hv, hcs2⟩ := parseObjTail_falsy h hf
      have hrest : rest = rest.takeWhile isJsonWs ++ (rbrace :: r) := by
        conv_lhs => rw [← List.takeWhile_append_dropWhile isJsonWs rest]
        rw [hcs2]
      refine Or.inl ⟨hv, rest.takeWhile isJsonWs, ?_,
        fun c hc => List.mem_takeWhile_imp hc⟩
      conv_lhs => rw [hrest]
      simp [List.cons_append]
    · split at h
      · rename_i hc
        subst hc
        obtain ⟨hv, hcs2⟩ := parseArrTail_falsy h hf
        have hrest : rest = rest.takeWhile isJsonWs ++ (']' :: r) := by
          conv_lhs => rw [← List.takeWhile_append_dropWhile isJsonWs rest]
          rw [hcs2]
        refine Or.inr ⟨'[' :: (rest.takeWhile isJsonWs ++ [']']), ?_, ?_⟩
        · conv_lhs => rw [hrest]
          simp [List.append_assoc]
        · intro c hc
          rcases List.mem_cons.mp hc with rfl | hc
          · exact ⟨by decide, by decide⟩
          rcases List.mem_append.mp hc with hc | hc
          · exact ws_safe (List.mem_takeWhile_imp hc)
          · rcases List.mem_singleton.mp hc with rfl
            exact ⟨by decide, by decide⟩
      · split at h
        · rename_i hc
          subst hc
          split at h
          · rename_i cs' r' hsb
            simp only [Option.some.injEq, Prod.mk.injEq] at h
            obtain ⟨hv, hr⟩ := h
            rw [← hv] at hf
            have hcs' : cs' = [] := by
              have : String.mk cs' = "" := by simpa [jtruthy] using hf
              exact congrArg String.data this
            rw [hcs', hr] at hsb
            have hrest := parseStringBody_nil_shape hsb
            refine Or.inr ⟨['"', '"'], ?_, by decide⟩
            rw [hrest]
            rfl
          · exact Option.noConfusion h
        · split at h
          · rename_i hc
            subst hc
            obtain ⟨hv, hrest⟩ := parseExact_shape h
            refine Or.inr ⟨'n' :: ['u', 'l', 'l'], ?_, by decide⟩
            rw [hrest]
            rfl
          · split at h
            · rename_i hc
              obtain ⟨hv, -⟩ := parseExact_shape h
              rw [hv] at hf
              exact absurd hf (by decide)
            · split at h
              · rename_i hc
                subst hc
                obtain ⟨hv, hrest⟩ := parseExact_shape h
                refine Or.inr ⟨'f' :: ['a', 'l', 's', 'e'], ?_, by decide⟩
                rw [hrest]
                rfl
              · split at h
                · rename_i hc
                  obtain ⟨hv, -⟩ := parseExact_shape h
                  rw [hv] at hf
                  exact absurd hf (by decide)
                · split at h
                  · rename_i hc
                    obtain ⟨hv, -⟩ := parseExact_shape h
                    rw [hv] at hf
                    exact absurd hf (by decide)
                  · split at h
                    · rename_i hc
                      obtain ⟨hv, -⟩ := parseExact_shape h
                      rw [hv] at hf
                      exact absurd hf (by decide)
                    · split at h
                      · rename_i m' e' r' hnum
                        simp only [Option.some.injEq, Prod.mk.injEq] at h
                        obtain ⟨-, hr⟩ := h
                        rw [hr] at hnum
                        obtain ⟨pre, hpre, hprec⟩ := parseNumberCore_shape hnum
                        exact Or.inr ⟨pre, hpre,
                          fun c hc => numChar_safe (hprec c hc)⟩
                      · exact Option.noConfusion h

theorem jsonLoads_falsy_shape {text : String} {v : Json}
    (h : jsonLoads text = some v) (hf : jtruthy v = false) :
    (v = .obj [] ∧ ∃ lw ws1 tw, text.data = lw ++ lbrace :: ws1 ++ rbrace :: tw ∧
       (∀ c ∈ lw, isJsonWs c = true) ∧ (∀ c ∈ ws1, isJsonWs c = true) ∧
       (∀ c ∈ tw, isJsonWs c = true)) ∨
    (∀ c ∈ text.data, c ≠ lbrace ∧ c ≠ btick) := by
  unfold jsonLoads at h
  split at h
  · rename_i v' rest heq
    split at h
    · rename_i hrest
      simp only [Option.some.injEq] at h
      subst h
      have hrw : ∀ c ∈ rest, isJsonWs c = true := List.dropWhile_eq_nil_iff.mp hrest
      have hsplit : text.data = text.data.takeWhile isJsonWs
          ++ text.data.dropWhile isJsonWs :=
        (List.takeWhile_append_dropWhile _ _).symm
      have hlw : ∀ c ∈ text.data.takeWhile isJsonWs, isJsonWs c = true :=
        fun c hc => List.mem_takeWhile_imp hc
      rcases parseValue_falsy_shape heq hf with ⟨hv, ws1, hdec, hws⟩ | ⟨pre, hdec, hpre⟩
      · left
        refine ⟨hv, text.data.takeWhile isJsonWs, ws1, rest, ?_, hlw, hws, hrw⟩
        conv_lhs => rw [hsplit]
        rw [hdec]
        simp [List.append_assoc]
      · right
        have hfull : text.data = text.data.takeWhile isJsonWs ++ (pre ++ rest) := by
          conv_lhs => rw [hsplit]
          rw [hdec]
        intro c hc
        rw [hfull] at hc
        rcases List.mem_append.mp hc with hc | hc
        · exact ws_safe (hlw c hc)
        rcases List.mem_append.mp hc with hc | hc
        · exact hpre c hc
        · exact ws_safe (hrw c hc)
    · exact Option.noConfusion h
  · exact Option.noConfusion h

theorem fenceScan_eq_none :
    ∀ {cs : List Char}, (∀ c ∈ cs, c ≠ btick) → fenceScan cs = none := by
  intro cs
  induction cs with
  | nil => intro _; rfl
  | cons a t ih =>
    intro hb
    have ha : ¬(fenceOpenChars.isPrefixOf (a :: t) = true) := by
      simp only [fenceOpenChars, List.isPrefixOf, Bool.and_eq_true, beq_iff_eq]
      intro hx
      exact hb a (List.mem_cons_self a t) hx.1.symm
    rw [fenceScan, if_neg ha]
    exact ih (fun c hc => hb c (List.mem_cons_of_mem a hc))

theorem fenceExtract_eq_none {s : String} (hb : ∀ c ∈ s.data, c ≠ btick) :
    fenceExtract s = none := by
  unfold fenceExtract
  rw [fenceScan_eq_none hb]
  rfl

theorem braceExtract_eq_none {s : String} (hb : ∀ c ∈ s.data, c ≠ lbrace) :
    braceExtract s = none := by
  unfold braceExtract
  have h1 : s.data.findIdx? (· = lbrace) = none := by
    rw [List.findIdx?_eq_none_iff]
    intro x hx
    simpa using hb x hx
  rw [h1]

theorem cascade_falsy_nonobj {text : String} {v : Json}
    (h : jsonLoads text = some v) (hf : jtruthy v = false)
    (hb : ∀ c ∈ text.data, c ≠ lbrace ∧ c ≠ btick) :
    cascadeData text = some v := by
  have hfe : fenceExtract text = none := fenceExtract_eq_none (fun c hc => (hb c hc).2)
  have hbe : braceExtract text = none := braceExtract_eq_none (fun c hc => (hb c hc).1)
  unfold cascadeData
  dsimp only
  rw [h, hfe, hbe]
  simp [truthyOpt, hf]

theorem ws_ne_rbrace {c : Char} (h : isJsonWs c = true) : c ≠ rbrace := by
  simp only [isJsonWs, Bool.or_eq_true, decide_eq_true_eq] at h
  rcases h with ((rfl | rfl) | rfl) | rfl <;> decide

theorem jsonLoads_ws_obj {ws1 : List Char} (hws : ∀ c ∈ ws1, isJsonWs c = true) :
    jsonLoads (String.mk (lbrace :: (ws1 ++ [rbrace]))) = some (.obj []) := by
  have hpv : ∀ n, parseValue (n + 2) (lbrace :: (ws1 ++ [rbrace])) = some (.obj [], []) := by
    intro n
    rw [parseValue, if_pos rfl, List.dropWhile_append_of_pos hws]
    rw [show ([rbrace].dropWhile isJsonWs) = [rbrace] from by decide]
    rw [parseObjTail, if_pos (by decide)]
    rfl
  unfold jsonLoads
  dsimp only
  rw [List.dropWhile_cons, if_neg (by decide)]
  obtain ⟨n, hn⟩ : ∃ n, 4 * (String.mk (lbrace :: (ws1 ++ [rbrace]))).length + 16 = n + 2 :=
    ⟨4 * (String.mk (lbrace :: (ws1 ++ [rbrace]))).length + 14, by omega⟩
  rw [hn, hpv n]
  rfl

theorem cascade_falsy_obj {text : String} {lw ws1 tw : List Char}
    (hdata : text.data = lw ++ lbrace :: ws1 ++ rbrace :: tw)
    (hlw : ∀ c ∈ lw, isJsonWs c = true) (hws : ∀ c ∈ ws1, isJsonWs c = true)
    (htw : ∀ c ∈ tw, isJsonWs c = true)
    (h : jsonLoads text = some (.obj [])) :
    cascadeData text = some (.obj []) := by
  have hbtick : ∀ c ∈ text.data, c ≠ btick := by
    intro c hc
    rw [hdata] at hc
    rcases List.mem_append.mp hc with hc | hc
    · rcases List.mem_append.mp hc with hc | hc
      · exact (ws_safe (hlw c hc)).2
      rcases List.mem_cons.mp hc with rfl | hc
      · decide
      · exact (ws_safe (hws c hc)).2
    rcases List.mem_cons.mp hc with rfl | hc
    · decide
    · exact (ws_safe (htw c hc)).2
  have hfe : fenceExtract text = none := fenceExtract_eq_none hbtick
  have hlen : text.data.length = lw.length + ws1.length + tw.length + 2 := by
    rw [hdata]
    simp only [List.length_append, List.length_cons]
    omega
  have hbe : braceExtract text = some (String.mk (lbrace :: (ws1 ++ [rbrace]))) := by
    have hn1 : lw.findIdx? (· = lbrace) = none := by
      rw [List.findIdx?_eq_none_iff]
      intro x hx
      simpa using (ws_safe (hlw x hx)).1
    have h1 : text.data.findIdx? (· = lbrace) = some lw.length := by
      rw [hdata, List.findIdx?_append, List.findIdx?_append, hn1]
      simp [List.findIdx?_cons]
    have hrevlist : text.data.reverse =
        tw.reverse ++ rbrace :: (ws1.reverse ++ lbrace :: lw.reverse) := by
      rw [hdata]
      simp
    have hn2 : tw.reverse.findIdx? (· = rbrace) = none := by
      rw [List.findIdx?_eq_none_iff]
      intro x hx
      simpa using ws_ne_rbrace (htw x (List.mem_reverse.mp hx))
    have h2 : text.data.reverse.findIdx? (· = rbrace) = some tw.length := by
      rw [hrevlist, List.findIdx?_append, hn2]
      simp [List.findIdx?_cons]
    have hassoc : text.data = lw ++ ((lbrace :: ws1) ++ rbrace :: tw) := by
      rw [hdata, List.append_assoc]
    have hdrop : text.data.drop lw.length = (lbrace :: ws1) ++ rbrace :: tw := by
      rw [hassoc]
      exact List.drop_left lw _
    have hidx : text.data.length - 1 - tw.length - lw.length + 1 = ws1.length + 2 := by
      omega
    have htake : ((lbrace :: ws1) ++ rbrace :: tw).take (ws1.length + 2) =
        lbrace :: (ws1 ++ [rbrace]) := by
      rw [List.cons_append, List.take_succ_cons, List.take_append]
      simp
    unfold braceExtract
    rw [h1, h2]
    dsimp only
    rw [if_pos (by omega)]
    rw [hdrop, hidx, htake]
  unfold cascadeData
  dsimp only
  rw [h, hfe, hbe]
  simp [truthyOpt, jtruthy, jsonLoads_ws_obj hws]

/-- C9: every raw response text that `json.loads` decodes to a falsy value
(empty object, empty list, `null`, `0`, empty string, `false`) is treated by
both parsing paths as a direct-parse failure — the success test is the
truthiness of the decoded value, not parse success — and after the fenced-block
and balanced-brace strategies also fail to produce a truthy value, each path
lands in the single-Markdown-file fallback instead of reporting a
missing-`files` outcome. -/
theorem c9_falsy_json_fallback (text base : String) (idxs : List Nat) (v : Json)
    (h : jsonLoads text = some v) (hf : jtruthy v = false) :
    truthyOpt (jsonLoads text) = false ∧
    parseAndSaveResponse text base = .ok (saveSimpleMarkdown text base) ∧
    parseAndSaveBatchResponse text base idxs =
      saveSimpleMarkdown text (base ++ "_batch_" ++ toString (idxs.headD 0)) := by
  have hw : ∃ w, cascadeData text = some w ∧ jtruthy w = false := by
    rcases jsonLoads_falsy_shape h hf with ⟨hv, lw, ws1, tw, hdata, hlw, hws, htw⟩ | hsafe
    · subst hv
      exact ⟨.obj [], cascade_falsy_obj hdata hlw hws htw h, by decide⟩
    · exact ⟨v, cascade_falsy_nonobj h hf hsafe, hf⟩
  obtain ⟨w, hcw, hwf⟩ := hw
  refine ⟨by rw [h]; simpa [truthyOpt] using hf, ?_, ?_⟩
  · unfold parseAndSaveResponse
    rw [hcw]
    simp [hwf]
  · unfold parseAndSaveBatchResponse
    dsimp only
    rw [hcw]
    simp [hwf]

/-- Witness for `c9_falsy_json_fallback` at the concrete falsy response
`\x7b\x7d` (the empty JSON object). -/
theorem c9_witness :
    jsonLoads "\x7b\x7d" = some (Json.obj []) ∧ jtruthy (Json.obj []) = false ∧
    (truthyOpt (jsonLoads "\x7b\x7d") = false ∧
     parseAndSaveResponse "\x7b\x7d" "out" = .ok (saveSimpleMarkdown "\x7b\x7d" "out") ∧
     parseAndSaveBatchResponse "\x7b\x7d" "out" [2] =
       saveSimpleMarkdown "\x7b\x7d" ("out" ++ "_batch_" ++ toString (([2] : List Nat).headD 0))) :=
  ⟨rfl, rfl, c9_falsy_json_fallback "\x7b\x7d" "out" [2] (Json.obj []) rfl rfl⟩

end SheetToMd
